import Mathlib

/-! Pullarim currency converter (`src/script.js`)

A shallow embedding of the converter's script: the thousands-separator
formatting of the amount field, the rate table and its refresh from the
central-bank feed, the conversion arithmetic, and the restore of stored
preferences.

Conventions of the embedding.

* JavaScript strings are Lean strings; the string functions work on the list
  of characters.
* JavaScript numbers are an arbitrary type `ν` carrying `*`, `/`, `0` and `1`.
  The arithmetic of `convertCurrency` is embedded over that type, so what is
  proved about the shape of a result holds for every reading of the
  operations. Algebraic laws are stated over a linearly ordered field (exact
  arithmetic); worked examples are evaluated over `ℚ`; what the program's own
  numbers do is evaluated over `Double`, the binary64 values with correctly
  rounded `*` and `/`.
* Host built-ins that the script calls but does not define (`parseFloat`,
  `parseInt`, `Math.round`, `toLocaleString`, the conversions of a value to a
  string and to a number, and the selector engine behind `querySelector`) are
  the fields of a `Host`, an argument of the functions that call them.
* The object `cbuRates` is the list of its own properties in insertion order
  (`State.cbuRates`) and the entry that a feed record with the key
  `__proto__` installed as its prototype, if any (`State.cbuProto`). A read
  `cbuRates[code]` finds an own property, else what the object inherits: from
  the installed prototype, else from `Object.prototype`.
* `fetchCBURates` is asynchronous. Its synchronous prefix (up to the first
  `await`) is `fetchCBURates`; the rest, run when the request settles, is
  `fetchSettled`, which takes the outcome of the request.
-/

namespace Pullarim

/-! ## Amount formatting -/

/-- The step `value.toString().replace(/[^\d.]/g, '')` of `formatWithCommas`:
every character that is neither an ASCII digit nor a dot is removed. -/
def stripNonNumeric (cs : List Char) : List Char :=
  cs.filter (fun c => c.isDigit || c == '.')

/-- The regex class `\w`. -/
def isWordChar (c : Char) : Bool := c.isAlphanum || c == '_'

/-- Length of the maximal run of digits at the head of the list. -/
def digitRun : List Char → Nat
  | [] => 0
  | c :: cs => if c.isDigit then digitRun cs + 1 else 0

/-- The lookahead `(?=(\d{3})+(?!\d))`: the text ahead starts with a positive
multiple of three digits followed by a non-digit or the end. As the run of
digits ahead is maximal, that is: its length is a positive multiple of 3. -/
def groupAhead (rest : List Char) : Bool :=
  decide (0 < digitRun rest) && digitRun rest % 3 == 0

/-- The assertion `\b` between the previous character (if any) and the text
ahead: exactly one side is a word character. `\B` is its negation. -/
def atWordBoundary (prev : Option Char) (rest : List Char) : Bool :=
  prev.any isWordChar != rest.head?.any isWordChar

/-- The call `.replace(/\B(?=(\d{3})+(?!\d))/g, ',')`: a comma is inserted at
every position where the zero-width pattern matches. `prev` is the character
before the current position. At the end of the text the lookahead fails. -/
def insertSeparators (prev : Option Char) : List Char → List Char
  | [] => []
  | c :: cs =>
    (if !atWordBoundary prev (c :: cs) && groupAhead (c :: cs) then [','] else [])
      ++ c :: insertSeparators (some c) cs

/-- The function `formatWithCommas` on character lists: strip, split on the
dot, group the first part, join with dots. -/
def formatChars (value : List Char) : List Char :=
  (['.'] : List Char).intercalate
    (((stripNonNumeric value).splitOn '.').modifyHead (insertSeparators none))

/-- The function `formatWithCommas(value)`. -/
def formatWithCommas (value : String) : String := String.mk (formatChars value.data)

/-- The function `parseFormattedNumber` on character lists:
`.replace(/,/g, '')`. -/
def parseChars (formatted : List Char) : List Char := formatted.filter (fun c => c != ',')

/-- The function `parseFormattedNumber(formattedValue)`. -/
def parseFormattedNumber (formattedValue : String) : String :=
  String.mk (parseChars formattedValue.data)

/-- A string that consists only of decimal digits and dots. -/
def NumericText (s : String) : Prop := ∀ c ∈ s.data, c.isDigit = true ∨ c = '.'

/-- The grouping of an integer part as the specification words it: a comma
stands before every proper suffix whose length is a positive multiple of 3. -/
def groupThousands : List Char → List Char
  | [] => []
  | c :: cs =>
    c :: ((if 0 < cs.length ∧ cs.length % 3 = 0 then [','] else []) ++ groupThousands cs)

/-- The digits before the first dot. -/
def integerPart (l : List Char) : List Char := l.takeWhile (fun c => c != '.')

/-- The text from the first dot on. -/
def fractionPart (l : List Char) : List Char := l.dropWhile (fun c => c != '.')

/-! ## Values, host built-ins, the rate table -/

/-- A value read from the feed: what `JSON.parse` yields, and `undefined` for
a property that is not there. -/
inductive JSValue (ν : Type) where
  | undefined
  | null
  | bool (b : Bool)
  | number (n : ν)
  | string (s : String)
  | array (items : List (JSValue ν))
  | object (props : List (String × JSValue ν))

/-- Whether reading a property of the value throws a `TypeError`. -/
def JSValue.isNullish {ν : Type} : JSValue ν → Bool
  | .undefined => true
  | .null => true
  | _ => false

/-- The read `item.key` on a value that is not nullish: the property of an
object, `undefined` on anything else (the keys read by the script are no
built-in property of a string, number, boolean or array). -/
def JSValue.prop {ν : Type} : JSValue ν → String → JSValue ν
  | .object props, key => (props.lookup key).getD .undefined
  | _, _ => .undefined

/-- How a call of `querySelector` ends. -/
inductive QueryOutcome where
  /-- The selector text is no valid selector: a `SyntaxError` is thrown. -/
  | throws
  /-- No element matches: `null`. -/
  | null
  /-- An element matches. -/
  | element
  deriving DecidableEq

/-- Built-ins of the host that the script calls. -/
structure Host (ν : Type) where
  /-- The global `parseFloat`. -/
  parseFloat : JSValue ν → ν
  /-- The global `parseInt`. -/
  parseInt : JSValue ν → ν
  /-- Truthiness of a number: false for `0` and `NaN`. -/
  truthy : ν → Bool
  /-- String conversion of a value that is not a string. -/
  toText : JSValue ν → String
  /-- Number conversion of a value, as `*` and `/` apply it to an operand that
  is not a number (`NaN` for `undefined`). -/
  toNumber : JSValue ν → ν
  /-- The selector engine: `select.querySelector(selector)` for a selector
  text and a selector element with the given option values. -/
  querySelector : String → List String → QueryOutcome
  /-- The function `Math.round`. -/
  round : ν → ν
  /-- The call `n.toLocaleString('en-US', ...)` with the given
  `minimumFractionDigits` (when passed) and `maximumFractionDigits`. -/
  toLocaleString : ν → Option Nat → Nat → String

/-- String conversion, as in a template literal or a property key: a string
is itself. -/
def Host.text {ν : Type} (h : Host ν) : JSValue ν → String
  | .string s => s
  | v => h.toText v

/-- One entry of `cbuRates`. The base entry `{ rate: 1, nominal: 1 }` has no
`name` and no `date`: reading them gives `undefined`. -/
structure RateEntry (ν : Type) where
  rate : ν
  nominal : ν
  name : JSValue ν := .undefined
  date : JSValue ν := .undefined

/-- The object `cbuRates`: its own properties, in insertion order. -/
abbrev RateTable (ν : Type) := List (String × RateEntry ν)

/-- The own property `code` of `cbuRates`, if the table has that key. -/
def RateTable.get {ν : Type} (t : RateTable ν) (code : String) : Option (RateEntry ν) :=
  t.lookup code

/-- The names of the members of `Object.prototype`. All are functions, but
`__proto__`, an accessor that gives the prototype of the object. -/
def objectPrototypeNames : List String :=
  ["constructor", "__defineGetter__", "__defineSetter__", "hasOwnProperty",
    "__lookupGetter__", "__lookupSetter__", "isPrototypeOf", "propertyIsEnumerable",
    "toString", "valueOf", "__proto__", "toLocaleString"]

/-- What a read `cbuRates[code]` gives. -/
inductive Property (ν : Type) where
  /-- An entry object: an own property, or the installed prototype itself. -/
  | entry (e : RateEntry ν)
  /-- A field of the installed prototype, or `undefined` when nothing is
  found. -/
  | value (v : JSValue ν)
  /-- A member of `Object.prototype`: a function, or `Object.prototype`
  itself. -/
  | builtin

/-- The read `cbuRates[code]`: an own property first; then the fields of the
entry installed as the prototype (and that entry itself under `__proto__`);
then the members of `Object.prototype`; else `undefined`. -/
def readProperty {ν : Type} (table : RateTable ν) (proto : Option (RateEntry ν))
    (code : String) : Property ν :=
  match table.get code with
  | some e => .entry e
  | none =>
    match proto with
    | some p =>
      if code = "__proto__" then .entry p
      else if code = "rate" then .value (.number p.rate)
      else if code = "nominal" then .value (.number p.nominal)
      else if code = "name" then .value p.name
      else if code = "date" then .value p.date
      else if objectPrototypeNames.contains code then .builtin
      else .value .undefined
    | none => if objectPrototypeNames.contains code then .builtin else .value .undefined

/-- The names under which a read of `cbuRates` finds something that is no
own property. -/
def inheritedNames {ν : Type} (proto : Option (RateEntry ν)) : List String :=
  match proto with
  | some _ => ["rate", "nominal", "name", "date"] ++ objectPrototypeNames
  | none => objectPrototypeNames

/-- Truthiness of a value. -/
def Host.truthyValue {ν : Type} (h : Host ν) : JSValue ν → Bool
  | .undefined => false
  | .null => false
  | .bool b => b
  | .number n => h.truthy n
  | .string s => decide (s ≠ "")
  | .array _ => true
  | .object _ => true

/-- Truthiness of what a read of `cbuRates` gave: the test `!fromRate`. -/
def Host.truthyProperty {ν : Type} (h : Host ν) : Property ν → Bool
  | .entry _ => true
  | .value v => h.truthyValue v
  | .builtin => true

/-- The operand `fromRate.rate` of a division: the rate of an entry; for
anything else the read of its property `rate`, converted to a number. -/
def Host.rateOf {ν : Type} (h : Host ν) : Property ν → ν
  | .entry e => e.rate
  | .value v => h.toNumber (v.prop "rate")
  | .builtin => h.toNumber .undefined

/-- The operand `fromRate.nominal` of a division. -/
def Host.nominalOf {ν : Type} (h : Host ν) : Property ν → ν
  | .entry e => e.nominal
  | .value v => h.toNumber (v.prop "nominal")
  | .builtin => h.toNumber .undefined

/-- The write `cbuRates[key] = entry`: an existing property is replaced in
place, a new one is appended. The key `__proto__` reaches the prototype
setter and creates no own property. -/
def RateTable.set {ν : Type} (t : RateTable ν) (key : String) (entry : RateEntry ν) :
    RateTable ν :=
  if key = "__proto__" then t
  else if t.any (fun p => p.1 == key) then
    t.map (fun p => if p.1 == key then (key, entry) else p)
  else t ++ [(key, entry)]

/-- The literal `{ UZS: { rate: 1, nominal: 1 } }`. -/
def baseTable (ν : Type) [One ν] : RateTable ν := [("UZS", { rate := 1, nominal := 1 })]

/-! ## State -/

/-- The script's variables, the DOM fields it reads and writes, the three
`localStorage` items, and two counters that only record what happened:
`pending`, the network requests issued and not yet settled, and
`errorsShown`, the calls of `showError`. -/
structure State (ν : Type) where
  /-- The own properties of `cbuRates`. -/
  cbuRates : RateTable ν
  /-- The entry installed as the prototype of `cbuRates`, if any. -/
  cbuProto : Option (RateEntry ν)
  isLoading : Bool
  rawInputValue : String
  /-- The value of `fromCurrencySelect`. -/
  fromCurrency : String
  /-- The value of `toCurrencySelect`. -/
  toCurrency : String
  /-- The `value` attributes of the options of `fromCurrencySelect`. -/
  fromOptions : List String
  /-- The `value` attributes of the options of `toCurrencySelect`. -/
  toOptions : List String
  /-- The value of `fromAmountInput`. -/
  fromAmount : String
  /-- The value of `toAmountInput`. -/
  toAmount : String
  /-- The `innerHTML` of `rateTextEl`. -/
  rateText : String
  rateColor : String
  rateDisplay : String
  loadingDisplay : String
  /-- The `textContent` of `lastUpdatedEl`. -/
  lastUpdated : String
  lastUpdatedColor : String
  savedFrom : Option String
  savedTo : Option String
  savedAmount : Option String
  pending : Nat
  errorsShown : Nat

/-- The message written by `showError` and by the `catch` block. -/
def errorText : String := "⚠️ Kurslarni yuklashda xatolik"

/-- The function `showLoading(show)`. -/
def showLoading {ν : Type} (show_ : Bool) (s : State ν) : State ν :=
  { s with
    loadingDisplay := if show_ then "flex" else "none"
    rateDisplay := if show_ then "none" else "inline" }

/-- The function `showError()`. -/
def showError {ν : Type} (s : State ν) : State ν :=
  { s with rateText := errorText, rateColor := "#f87171", errorsShown := s.errorsShown + 1 }

/-- The synchronous prefix of `fetchCBURates()`: return at once while a
refresh is in flight, else raise the flag, show the loading state and issue
the request. -/
def fetchCBURates {ν : Type} (s : State ν) : State ν :=
  if s.isLoading then s
  else showLoading true { s with isLoading := true, pending := s.pending + 1 }

/-! ## Conversion -/

/-- The list `noDecimalCurrencies`. -/
def noDecimalCurrencies : List String := ["JPY", "KRW", "UZS", "KZT", "VND", "IDR"]

/-- The function `formatResultNumber(number, currency)`. -/
def formatResultNumber {ν : Type} (h : Host ν) (number : ν) (currency : String) : String :=
  if noDecimalCurrencies.contains currency then
    h.toLocaleString (h.round number) none 0
  else
    h.toLocaleString number (some 2) 4

/-- The function `updateRateDisplay(from, to)`. -/
def updateRateDisplay {ν : Type} [Div ν] [One ν] (h : Host ν) (src dst : String)
    (s : State ν) : State ν :=
  let fromRate := readProperty s.cbuRates s.cbuProto src
  let toRate := readProperty s.cbuRates s.cbuProto dst
  if !h.truthyProperty fromRate || !h.truthyProperty toRate then s
  else
    let rate : ν :=
      if src = "UZS" then 1 / (h.rateOf toRate / h.nominalOf toRate)
      else if dst = "UZS" then h.rateOf fromRate / h.nominalOf fromRate
      else (h.rateOf fromRate / h.nominalOf fromRate) / (h.rateOf toRate / h.nominalOf toRate)
    { s with
      rateText := "1 " ++ src ++ " = <span class=\"highlight\">"
        ++ formatResultNumber h rate dst ++ "</span> " ++ dst
      rateColor := "" }

/-- What a call of `convertCurrency` settles on before it touches the page. -/
inductive Conversion (ν : Type) where
  /-- The table has no key: `fetchCBURates()` is called. -/
  | refresh
  /-- One of the two reads of `cbuRates` gave something falsy:
  `showError()`. -/
  | lookupError
  /-- The value of the variable `result`. -/
  | result (value : ν)

/-- The branches and the arithmetic of `convertCurrency` on the object
`cbuRates` (own properties and installed prototype), the two selected codes
and the amount. -/
def conversion {ν : Type} [Mul ν] [Div ν] (h : Host ν) (table : RateTable ν)
    (proto : Option (RateEntry ν)) (fromCurrency toCurrency : String) (amount : ν) :
    Conversion ν :=
  if table.length = 0 then .refresh
  else
    let fromRate := readProperty table proto fromCurrency
    let toRate := readProperty table proto toCurrency
    if !h.truthyProperty fromRate || !h.truthyProperty toRate then .lookupError
    else if fromCurrency = "UZS" then
      .result (amount / (h.rateOf toRate / h.nominalOf toRate))
    else if toCurrency = "UZS" then
      .result (amount * (h.rateOf fromRate / h.nominalOf fromRate))
    else
      .result (amount * (h.rateOf fromRate / h.nominalOf fromRate)
        / (h.rateOf toRate / h.nominalOf toRate))

/-- The amount read by `convertCurrency`: `parseFloat(rawInputValue) || 0`. -/
def inputAmount {ν : Type} [Zero ν] (h : Host ν) (s : State ν) : ν :=
  if h.truthy (h.parseFloat (.string s.rawInputValue)) then
    h.parseFloat (.string s.rawInputValue)
  else 0

/-- The function `convertCurrency()`. -/
def convertCurrency {ν : Type} [Mul ν] [Div ν] [Zero ν] [One ν] (h : Host ν)
    (s : State ν) : State ν :=
  match conversion h s.cbuRates s.cbuProto s.fromCurrency s.toCurrency (inputAmount h s) with
  | .refresh => fetchCBURates s
  | .lookupError => showError s
  | .result value =>
    updateRateDisplay h s.fromCurrency s.toCurrency
      { s with toAmount := formatResultNumber h value s.toCurrency }

/-! ## Refresh -/

/-- How the request of `fetchCBURates` settles. -/
inductive FetchOutcome (ν : Type) where
  /-- The promise of `fetch` rejects. -/
  | networkError
  /-- The response arrives with `response.ok` false. -/
  | notOk
  /-- The promise of `response.json()` rejects: the body is no JSON. -/
  | invalidJson
  /-- The body parses to `data`. -/
  | parsed (data : JSValue ν)

/-- The entry that the callback of `data.forEach` builds from an item. -/
def recordEntry {ν : Type} (h : Host ν) (item : JSValue ν) : RateEntry ν :=
  { rate := h.parseFloat (item.prop "Rate")
    nominal := h.parseInt (item.prop "Nominal")
    name := item.prop "CcyNm_UZ"
    date := item.prop "Date" }

/-- The callback of `data.forEach`, run over the items in order, on the
table built so far and its prototype. Reading `item.Ccy` of a nullish item
throws: the error carries the object as it stands at that moment. A record
with the key `__proto__` installs its entry as the prototype. -/
def forEachRecord {ν : Type} (h : Host ν) :
    List (JSValue ν) → RateTable ν → Option (RateEntry ν) →
      Except (RateTable ν × Option (RateEntry ν)) (RateTable ν × Option (RateEntry ν))
  | [], t, p => .ok (t, p)
  | item :: rest, t, p =>
    if item.isNullish then .error (t, p)
    else
      forEachRecord h rest
        (t.set (h.text (item.prop "Ccy")) (recordEntry h item))
        (if h.text (item.prop "Ccy") = "__proto__" then some (recordEntry h item) else p)

/-- The `catch` block of `fetchCBURates`. -/
def catchBlock {ν : Type} (s : State ν) : State ν :=
  showError { s with lastUpdated := errorText, lastUpdatedColor := "#f87171" }

/-- The `finally` block of `fetchCBURates`; the request has settled. -/
def finallyBlock {ν : Type} (s : State ν) : State ν :=
  showLoading false { s with isLoading := false, pending := s.pending - 1 }

/-- The `try` block of `fetchCBURates` from `cbuRates = ...` on, for a body
that parsed to `data`. A `data` that is no array has no `forEach`: the call
throws after the table was reset. -/
def applyData {ν : Type} [Mul ν] [Div ν] [Zero ν] [One ν] (h : Host ν)
    (data : JSValue ν) (s : State ν) : State ν :=
  match data with
  | .array items =>
    match forEachRecord h items (baseTable ν) none with
    | .ok built =>
      convertCurrency h
        (match items with
          | first :: _ =>
            { s with
              cbuRates := built.1
              cbuProto := built.2
              lastUpdated := "Markaziy Bank kursi: " ++ h.text (first.prop "Date")
              lastUpdatedColor := "" }
          | [] => { s with cbuRates := built.1, cbuProto := built.2 })
    | .error built => catchBlock { s with cbuRates := built.1, cbuProto := built.2 }
  | _ => catchBlock { s with cbuRates := baseTable ν, cbuProto := none }

/-- The rest of `fetchCBURates()` after the request settles. -/
def fetchSettled {ν : Type} [Mul ν] [Div ν] [Zero ν] [One ν] (h : Host ν)
    (outcome : FetchOutcome ν) (s : State ν) : State ν :=
  finallyBlock
    (match outcome with
      | .parsed data => applyData h data s
      | _ => catchBlock s)

/-! ## Preferences and page events -/

/-- Assigning `v` to the `value` of a selector: the first option with that
value becomes the selected one; with no such option nothing is selected and
the value reads as the empty string. -/
def selectValue (options : List String) (v : String) : String :=
  if options.contains v then v else ""

/-- The characters that do not stand for themselves inside a double-quoted
string of a selector: the quote (34), the backslash (92), the line breaks
(10, 12, 13) and the null character (0). -/
def selectorSpecial (c : Char) : Bool :=
  c.toNat == 34 || c.toNat == 92 || c.toNat == 10 || c.toNat == 12 || c.toNat == 13
    || c.toNat == 0

/-- A text without such characters: spliced between the quotes of
`option[value="..."]` it is the string the attribute is compared with. -/
def plainText (s : String) : Bool := s.data.all (fun c => !selectorSpecial c)

/-- The selector text that the template literal of `loadCurrencyPreference`
builds: the stored text spliced, unescaped, between the quotes. -/
def optionSelector (saved : String) : String := "option[value=\"" ++ saved ++ "\"]"

/-- The call `select.querySelector(...)` with that selector text. For a
plain stored text the selector is valid and matches the options whose `value`
attribute is that text. For any other text the quoted string ends early or
holds an escape: what happens (a `SyntaxError`, or a match of whatever the
text then selects) is the answer of the host's selector engine. -/
def queryOption {ν : Type} (h : Host ν) (saved : String) (options : List String) :
    QueryOutcome :=
  if plainText saved then (if options.contains saved then .element else .null)
  else h.querySelector (optionSelector saved) options

/-- The guard `saved && select.querySelector(...)` of `loadCurrencyPreference`
and the assignment `select.value = saved` that it protects. The stored item
is `none` when the key is not in the storage; the empty string is falsy. The
result is the value of the selector afterwards, or `none` when
`querySelector` throws. -/
def restoreSelection {ν : Type} (h : Host ν) (saved : Option String) (options : List String)
    (current : String) : Option String :=
  match saved with
  | none => some current
  | some v =>
    if v = "" then some current
    else
      match queryOption h v options with
      | .throws => none
      | .null => some current
      | .element => some (selectValue options v)

/-- The function `loadCurrencyPreference()`. An error is the page at the
moment `querySelector` throws: the function is left at that point. -/
def loadCurrencyPreference {ν : Type} (h : Host ν) (s : State ν) :
    Except (State ν) (State ν) :=
  match restoreSelection h s.savedFrom s.fromOptions s.fromCurrency with
  | none => .error s
  | some restoredFrom =>
    match restoreSelection h s.savedTo s.toOptions s.toCurrency with
    | none => .error { s with fromCurrency := restoredFrom }
    | some restoredTo =>
      .ok
        (match s.savedAmount with
          | some savedAmount =>
            if savedAmount ≠ "" then
              { s with
                fromCurrency := restoredFrom
                toCurrency := restoredTo
                rawInputValue := savedAmount
                fromAmount := formatWithCommas savedAmount }
            else { s with fromCurrency := restoredFrom, toCurrency := restoredTo }
          | none => { s with fromCurrency := restoredFrom, toCurrency := restoredTo })

/-- The page after a call, whether it returned or threw. -/
def pageAfter {ν : Type} : Except (State ν) (State ν) → State ν
  | .ok s => s
  | .error s => s

/-- The function `saveCurrencyPreference()`. -/
def saveCurrencyPreference {ν : Type} (s : State ν) : State ν :=
  { s with savedFrom := some s.fromCurrency, savedTo := some s.toCurrency }

/-- The function `swapCurrencies()`. -/
def swapCurrencies {ν : Type} [Mul ν] [Div ν] [Zero ν] [One ν] (h : Host ν)
    (s : State ν) : State ν :=
  let tempCurrency := s.fromCurrency
  let s1 : State ν := { s with fromCurrency := selectValue s.fromOptions s.toCurrency }
  let s2 : State ν := { s1 with toCurrency := selectValue s1.toOptions tempCurrency }
  let s3 : State ν := { s2 with rawInputValue := parseFormattedNumber s2.toAmount }
  let s4 : State ν := { s3 with fromAmount := formatWithCommas s3.rawInputValue }
  convertCurrency h (saveCurrencyPreference s4)

/-- The function `handleInputFormat(e)` with the storage write of its timer
callback, for a field that holds `typed`; the debounced conversion is the
event `convert`. The cursor and the clear button are not part of the state. -/
def handleInputFormat {ν : Type} (typed : String) (s : State ν) : State ν :=
  { s with
    rawInputValue := parseFormattedNumber typed
    fromAmount := formatWithCommas (parseFormattedNumber typed)
    savedAmount := some (parseFormattedNumber typed) }

/-- What can happen on the page. -/
inductive Event (ν : Type) where
  /-- A call of `fetchCBURates()`: page load, the 30-minute timer, the tab
  becoming visible. -/
  | refresh
  /-- The request in flight settles. -/
  | settled (outcome : FetchOutcome ν)
  /-- A call of `convertCurrency()`: the debounce timer, the Enter key. -/
  | convert
  /-- The `input` listener of the amount field. -/
  | input (typed : String)
  /-- The `change` listener of the source selector, the user having picked
  the option `code`. -/
  | changeFrom (code : String)
  /-- The `change` listener of the target selector. -/
  | changeTo (code : String)
  /-- The `click` listener of the swap button. -/
  | swap
  /-- The `click` listener of the clear button. -/
  | clear
  /-- The `DOMContentLoaded` listener: `loadCurrencyPreference()` twice, then
  `fetchCBURates()`; an exception thrown on the way ends the listener. -/
  | load

/-- One event. A request can only settle when one is pending. -/
def step {ν : Type} [Mul ν] [Div ν] [Zero ν] [One ν] (h : Host ν) :
    Event ν → State ν → Option (State ν)
  | .refresh, s => some (fetchCBURates s)
  | .settled outcome, s => if 0 < s.pending then some (fetchSettled h outcome s) else none
  | .convert, s => some (convertCurrency h s)
  | .input typed, s => some (handleInputFormat typed s)
  | .changeFrom code, s =>
    some (convertCurrency h
      (saveCurrencyPreference { s with fromCurrency := selectValue s.fromOptions code }))
  | .changeTo code, s =>
    some (convertCurrency h
      (saveCurrencyPreference { s with toCurrency := selectValue s.toOptions code }))
  | .swap, s => some (swapCurrencies h s)
  | .clear, s => some (convertCurrency h { s with fromAmount := "", rawInputValue := "" })
  | .load, s =>
    match loadCurrencyPreference h s with
    | .error thrown => some thrown
    | .ok s1 =>
      match loadCurrencyPreference h s1 with
      | .error thrown => some thrown
      | .ok s2 => some (fetchCBURates s2)

/-- A sequence of events, from the state `s`. -/
def run {ν : Type} [Mul ν] [Div ν] [Zero ν] [One ν] (h : Host ν) :
    List (Event ν) → State ν → Option (State ν)
  | [], s => some s
  | e :: es, s => (step h e s).bind (run h es)

/-- The page before any event: the script's initial values, the two
selectors with the given options and selected values, the given storage. -/
def initialState (ν : Type) (fromOptions toOptions : List String)
    (fromCurrency toCurrency : String) (savedFrom savedTo savedAmount : Option String) :
    State ν :=
  { cbuRates := []
    cbuProto := none
    isLoading := false
    rawInputValue := "1"
    fromCurrency := fromCurrency
    toCurrency := toCurrency
    fromOptions := fromOptions
    toOptions := toOptions
    fromAmount := ""
    toAmount := ""
    rateText := ""
    rateColor := ""
    rateDisplay := ""
    loadingDisplay := ""
    lastUpdated := ""
    lastUpdatedColor := ""
    savedFrom := savedFrom
    savedTo := savedTo
    savedAmount := savedAmount
    pending := 0
    errorsShown := 0 }

/-! ## The converter as the specification words it -/

/-- The per-unit rate of the specification: `perUnit = rate / nominal`. -/
def perUnit {ν : Type} [Div ν] (entry : RateEntry ν) : ν := entry.rate / entry.nominal

/-- The converter of the specification on two entries of the table, with the
base currency `UZS`: `amount / perUnit(to)` from the base,
`amount * perUnit(from)` to the base, `amount * perUnit(from) / perUnit(to)`
otherwise. -/
def specConvert {ν : Type} [Mul ν] [Div ν] (amount : ν) (src dst : String)
    (srcEntry dstEntry : RateEntry ν) : ν :=
  if src = "UZS" then amount / perUnit dstEntry
  else if dst = "UZS" then amount * perUnit srcEntry
  else amount * perUnit srcEntry / perUnit dstEntry

/-- Every entry of the table has a positive rate and a positive nominal. -/
def PositiveEntries {ν : Type} [Zero ν] [LT ν] (table : RateTable ν) : Prop :=
  ∀ code entry, table.get code = some entry → 0 < entry.rate ∧ 0 < entry.nominal

/-- The base currency, when it is in the table, is at par: its rate equals
its nominal, as in the entry `{ rate: 1, nominal: 1 }`. -/
def BaseAtPar {ν : Type} (table : RateTable ν) : Prop :=
  ∀ entry, table.get "UZS" = some entry → entry.rate = entry.nominal

/-- The in-flight flag counts the pending requests: one while it is raised,
none otherwise. -/
def FlagCountsPending {ν : Type} (s : State ν) : Prop :=
  s.pending = if s.isLoading then 1 else 0

/-! ## Binary64 numbers -/

/-- The values of IEEE 754 binary64, the numbers of the program: `NaN`, the
two infinities, and the finite values with sign `neg` and magnitude
`mant * 2 ^ exp`. A value of the format has `mant < 2 ^ 53` and
`-1074 ≤ exp ≤ 971`, with `2 ^ 52 ≤ mant` unless `exp = -1074` (zero and the
subnormal numbers). -/
inductive Double where
  | nan
  | inf (neg : Bool)
  | fin (neg : Bool) (mant : Nat) (exp : Int)
  deriving DecidableEq

/-- The number of binary digits of `n`, by halving; `fuel` bounds the steps. -/
def bitLengthAux : Nat → Nat → Nat
  | 0, _ => 0
  | fuel + 1, n => if n = 0 then 0 else bitLengthAux fuel (n / 2) + 1

/-- The number of binary digits of `n`. -/
def bitLength (n : Nat) : Nat := bitLengthAux n n

/-- The integer nearest to `m / 2 ^ shift`, a tie going to the even one. -/
def roundHalfEven (m shift : Nat) : Nat :=
  if 2 ^ (shift - 1) < m % 2 ^ shift
      ∨ (m % 2 ^ shift = 2 ^ (shift - 1) ∧ (m / 2 ^ shift) % 2 = 1) then
    m / 2 ^ shift + 1
  else m / 2 ^ shift

/-- The binary64 value nearest to `m * 2 ^ e` (ties to even), with sign
`neg`: the magnitude keeps 53 binary digits, fewer below `2 ^ -1022`, and
becomes infinite from `2 ^ 1024` on. -/
def Double.round (neg : Bool) (m : Nat) (e : Int) : Double :=
  if m = 0 then .fin neg 0 (-1074)
  else
    let e1 : Int := max (e + (bitLength m : Int) - 53) (-1074)
    let q : Nat := if e1 ≤ e then m * 2 ^ (e - e1).toNat else roundHalfEven m (e1 - e).toNat
    if 971 < (if q = 2 ^ 53 then e1 + 1 else e1) then .inf neg
    else .fin neg (if q = 2 ^ 53 then 2 ^ 52 else q) (if q = 2 ^ 53 then e1 + 1 else e1)

/-- The binary64 value nearest to a natural number: what `parseFloat` gives
for a string of decimal digits. -/
def Double.ofNat (n : Nat) : Double := Double.round false n 0

/-- The operator `*` on numbers. -/
def Double.mul : Double → Double → Double
  | .nan, _ => .nan
  | _, .nan => .nan
  | .inf s, .inf t => .inf (xor s t)
  | .inf s, .fin t m _ => if m = 0 then .nan else .inf (xor s t)
  | .fin s m _, .inf t => if m = 0 then .nan else .inf (xor s t)
  | .fin s m e, .fin t n f => Double.round (xor s t) (m * n) (e + f)

/-- The operator `/` on numbers. The quotient of two finite values is cut
after at least 56 binary digits, with one more digit that records whether
anything was cut off, and then rounded. -/
def Double.div : Double → Double → Double
  | .nan, _ => .nan
  | _, .nan => .nan
  | .inf _, .inf _ => .nan
  | .inf s, .fin t _ _ => .inf (xor s t)
  | .fin s _ _, .inf t => .fin (xor s t) 0 (-1074)
  | .fin s m e, .fin t n f =>
    if n = 0 then (if m = 0 then .nan else .inf (xor s t))
    else
      Double.round (xor s t)
        (2 * (m * 2 ^ (55 + bitLength n) / n)
          + (if m * 2 ^ (55 + bitLength n) % n = 0 then 0 else 1))
        (e - f - (55 + bitLength n : Nat) - 1)

instance : Mul Double := ⟨Double.mul⟩

instance : Div Double := ⟨Double.div⟩

instance : Zero Double := ⟨.fin false 0 (-1074)⟩

instance : One Double := ⟨Double.ofNat 1⟩

/-! ## Sample data -/

/-- The table of the specification's example:
`{UZS:{rate:1,nominal:1}, USD:{rate:12850,nominal:1}}`. -/
def sampleTable : RateTable ℚ :=
  [("UZS", { rate := 1, nominal := 1 }), ("USD", { rate := 12850, nominal := 1 })]

/-- The number `parseFloat("1580.96")`: the binary64 value nearest to
1580.96. -/
def yuanRate : Double := Double.ofNat 158096 / Double.ofNat 100

/-- The number `parseFloat` gives for `1` followed by 308 zeros. -/
def hugeAmount : Double := Double.ofNat (10 ^ 154 * 10 ^ 154)

/-- A table of the program's numbers that meets the data model: the base
entry `{ rate: 1, nominal: 1 }` and two entries with positive rate and
nominal, `USD` at 12850 and `CNY` at 1580.96. -/
def doubleTable : RateTable Double :=
  [("UZS", { rate := 1, nominal := 1 }),
    ("USD", { rate := Double.ofNat 12850, nominal := Double.ofNat 1 }),
    ("CNY", { rate := yuanRate, nominal := Double.ofNat 1 })]

/-- A page with the sample table, no refresh in flight, `USD` to `UZS`. -/
def samplePage : State ℚ :=
  { initialState ℚ ["UZS", "USD", "EUR"] ["UZS", "USD", "EUR"] "USD" "UZS" none none none with
    cbuRates := sampleTable
    rawInputValue := "10" }

/-- The page right after `DOMContentLoaded` with an empty storage: the table
is still empty and the first refresh is in flight. -/
def loadingPage : State ℚ :=
  fetchCBURates
    (initialState ℚ ["UZS", "USD", "EUR"] ["UZS", "USD", "EUR"] "USD" "UZS" none none none)

/-- The sample page with `EUR` selected as the source: the selector offers
it, the table has no entry for it. -/
def missingCodePage : State ℚ := { samplePage with fromCurrency := "EUR" }

/-- The sample page with a source selector whose selected option has the
value `constructor`: no key of the table, but a member of
`Object.prototype`. -/
def inheritedCodePage : State ℚ :=
  { samplePage with
    fromOptions := ["UZS", "USD", "constructor"]
    fromCurrency := "constructor" }

/-- The sample page while a later refresh is in flight. -/
def refreshingPage : State ℚ := fetchCBURates samplePage

/-- A feed record for the euro. -/
def eurRecord : JSValue ℚ :=
  .object [("Ccy", .string "EUR"), ("Rate", .string "13900"), ("Nominal", .string "1"),
    ("CcyNm_UZ", .string "EVRO"), ("Date", .string "01.01.2025")]

/-- A feed record for the US dollar. -/
def usdRecord : JSValue ℚ :=
  .object [("Ccy", .string "USD"), ("Rate", .string "12850"), ("Nominal", .string "1"),
    ("CcyNm_UZ", .string "AQSH dollari"), ("Date", .string "01.01.2025")]

/-- A feed record that carries the code of the base currency. -/
def uzsRecord : JSValue ℚ :=
  .object [("Ccy", .string "UZS"), ("Rate", .string "2"), ("Nominal", .string "1"),
    ("CcyNm_UZ", .string "SOM"), ("Date", .string "01.01.2025")]

/-- A page whose source selector has a placeholder option with the empty
value, `USD` selected, and the empty string stored as the source code. -/
def placeholderPage : State ℚ :=
  initialState ℚ ["", "USD", "UZS"] ["USD", "UZS"] "USD" "UZS" (some "") none none

/-- A page with a stored source code that holds a double quote, and `EUR`,
an option, stored as the target code. -/
def quotedCodePage : State ℚ :=
  initialState ℚ ["UZS", "USD", "EUR"] ["UZS", "USD", "EUR"] "USD" "UZS"
    (some "A\"B") (some "EUR") none

/-- A page with a stored source code that closes the quote of the selector
and goes on with a second selector, and nothing stored for the target. -/
def splicedCodePage : State ℚ :=
  initialState ℚ ["UZS", "USD", "EUR"] ["UZS", "USD", "EUR"] "USD" "UZS"
    (some "EUR\"],option[value=\"UZS") none none

/-- A page with `EUR` stored as the source code and `XXX`, which is no
option, as the target code. -/
def storedCodesPage : State ℚ :=
  initialState ℚ ["UZS", "USD", "EUR"] ["UZS", "USD", "EUR"] "USD" "UZS"
    (some "EUR") (some "XXX") none

/-! ## Formatting and parsing of the amount field -/

theorem intercalate_cons_of_ne_nil (sep a : List Char) (l : List (List Char)) (hl : l ≠ []) :
    sep.intercalate (a :: l) = a ++ sep ++ sep.intercalate l := by
  cases l with
  | nil => exact absurd rfl hl
  | cons b t => simp [List.intercalate, List.intersperse]

theorem join_modifyHead_splitOn (f : List Char → List Char) (l : List Char) :
    (['.'] : List Char).intercalate ((l.splitOn '.').modifyHead f)
      = f (l.takeWhile (fun c => c != '.')) ++ l.dropWhile (fun c => c != '.') := by
  induction l generalizing f with
  | nil => simp [List.splitOn, List.intercalate, List.modifyHead]
  | cons x xs ih =>
    have hne : xs.splitOn '.' ≠ [] := List.splitOnP_ne_nil _ _
    by_cases hx : x = '.'
    · subst hx
      have hs : ('.' :: xs).splitOn '.' = [] :: xs.splitOn '.' := by
        simp [List.splitOn, List.splitOnP_cons]
      rw [hs]
      simp only [List.modifyHead]
      rw [intercalate_cons_of_ne_nil _ _ _ hne, List.intercalate_splitOn]
      simp
    · have hs : (x :: xs).splitOn '.' = (xs.splitOn '.').modifyHead (List.cons x) := by
        simp [List.splitOn, List.splitOnP_cons, hx]
      rw [hs]
      have hm : ((xs.splitOn '.').modifyHead (List.cons x)).modifyHead f
          = (xs.splitOn '.').modifyHead (fun p => f (x :: p)) := by
        cases xs.splitOn '.' <;> simp [List.modifyHead]
      rw [hm, ih]
      simp [hx]

theorem filter_insertSeparators (prev : Option Char) (l : List Char) :
    parseChars (insertSeparators prev l) = parseChars l := by
  induction l generalizing prev with
  | nil => rfl
  | cons c cs ih =>
    unfold insertSeparators
    have ih2 := ih (some c)
    unfold parseChars at ih2 ⊢
    split <;> simp [List.filter_cons, ih2]

theorem parseChars_stripNonNumeric (l : List Char) :
    parseChars (stripNonNumeric l) = stripNonNumeric l := by
  unfold parseChars stripNonNumeric
  rw [List.filter_filter]
  apply List.filter_congr
  intro c _
  by_cases hc : c = ','
  · subst hc; decide
  · simp [hc]

theorem parse_formatChars (l : List Char) :
    parseChars (formatChars l) = stripNonNumeric l := by
  unfold formatChars
  rw [join_modifyHead_splitOn]
  have h1 : parseChars (insertSeparators none
        ((stripNonNumeric l).takeWhile (fun c => c != '.'))
      ++ (stripNonNumeric l).dropWhile (fun c => c != '.'))
      = parseChars (((stripNonNumeric l).takeWhile (fun c => c != '.'))
      ++ (stripNonNumeric l).dropWhile (fun c => c != '.')) := by
    have := filter_insertSeparators none ((stripNonNumeric l).takeWhile (fun c => c != '.'))
    unfold parseChars at this ⊢
    rw [List.filter_append, List.filter_append, this]
  rw [h1, List.takeWhile_append_dropWhile, parseChars_stripNonNumeric]

theorem stripNonNumeric_of_numeric (l : List Char)
    (h : ∀ c ∈ l, c.isDigit = true ∨ c = '.') : stripNonNumeric l = l := by
  unfold stripNonNumeric
  rw [List.filter_eq_self]
  intro c hc
  rcases h c hc with hd | hd
  · simp [hd]
  · simp [hd]

theorem digitRun_of_digits (l : List Char) (h : ∀ c ∈ l, c.isDigit = true) :
    digitRun l = l.length := by
  induction l with
  | nil => rfl
  | cons c cs ih =>
    have hc : c.isDigit = true := h c (List.mem_cons_self _ _)
    have := ih (fun d hd => h d (List.mem_cons_of_mem _ hd))
    simp [digitRun, hc, this]

theorem isWordChar_of_isDigit (c : Char) (h : c.isDigit = true) : isWordChar c = true := by
  simp [isWordChar, Char.isAlphanum, h]

theorem insertSeparators_some_digits (d : Char) (hd : d.isDigit = true) (l : List Char)
    (h : ∀ c ∈ l, c.isDigit = true) :
    insertSeparators (some d) l
      = (if 0 < l.length ∧ l.length % 3 = 0 then [','] else []) ++ groupThousands l := by
  induction l generalizing d with
  | nil => simp [insertSeparators, groupThousands]
  | cons c cs ih =>
    have hc : c.isDigit = true := h c (List.mem_cons_self _ _)
    have hcs : ∀ x ∈ cs, x.isDigit = true := fun x hx => h x (List.mem_cons_of_mem _ hx)
    have hrun := digitRun_of_digits (c :: cs) h
    unfold insertSeparators
    rw [ih c hc hcs]
    simp [atWordBoundary, groupAhead, hrun, isWordChar_of_isDigit, hc, hd, groupThousands]

theorem insertSeparators_none_digits (l : List Char) (h : ∀ c ∈ l, c.isDigit = true) :
    insertSeparators none l = groupThousands l := by
  cases l with
  | nil => rfl
  | cons c cs =>
    have hc : c.isDigit = true := h c (List.mem_cons_self _ _)
    have hcs : ∀ x ∈ cs, x.isDigit = true := fun x hx => h x (List.mem_cons_of_mem _ hx)
    unfold insertSeparators
    rw [insertSeparators_some_digits c hc cs hcs]
    simp [atWordBoundary, isWordChar_of_isDigit, hc, groupThousands]

theorem formatChars_of_numeric (l : List Char) (h : ∀ c ∈ l, c.isDigit = true ∨ c = '.') :
    formatChars l = groupThousands (integerPart l) ++ fractionPart l := by
  unfold formatChars integerPart fractionPart
  rw [stripNonNumeric_of_numeric l h, join_modifyHead_splitOn, insertSeparators_none_digits]
  intro c hc
  have hmem := (List.takeWhile_sublist _).subset hc
  have hp := List.mem_takeWhile_imp hc
  rcases h c hmem with hd | hd
  · exact hd
  · subst hd; simp at hp

/-- C10. Parsing undoes formatting: for every string `s` of decimal digits
and dots, `parseFormattedNumber (formatWithCommas s) = s`; on such a string
`formatWithCommas` leaves everything from the first dot on as it is and, in
the integer part before it, puts a comma exactly before the proper suffixes
whose length is a positive multiple of 3; `1000000` becomes `1,000,000`. -/
theorem parse_undoes_format :
    (∀ s : String, NumericText s → parseFormattedNumber (formatWithCommas s) = s)
    ∧ (∀ s : String, NumericText s →
        (formatWithCommas s).data
          = groupThousands (integerPart s.data) ++ fractionPart s.data)
    ∧ formatWithCommas "1000000" = "1,000,000"
    ∧ parseFormattedNumber "1,000,000" = "1000000" := by
  refine ⟨?_, ?_, by decide, by decide⟩
  · intro s hs
    show String.mk (parseChars (formatChars s.data)) = s
    rw [parse_formatChars, stripNonNumeric_of_numeric _ hs]
  · intro s hs
    exact formatChars_of_numeric s.data hs

/-- The claim C10 at the string `1234567.891`. -/
theorem parse_undoes_format_witness :
    NumericText "1234567.891"
    ∧ formatWithCommas "1234567.891" = "1,234,567.891"
    ∧ parseFormattedNumber (formatWithCommas "1234567.891") = "1234567.891" :=
  have hn : NumericText "1234567.891" := by unfold NumericText; decide
  ⟨hn, by decide, parse_undoes_format.1 _ hn⟩


/-! ## Conversion arithmetic -/

theorem length_ne_zero_of_get {ν : Type} (table : RateTable ν) (code : String)
    (entry : RateEntry ν) (h : table.get code = some entry) : table.length ≠ 0 := by
  cases table with
  | nil => simp [RateTable.get] at h
  | cons p t => simp

theorem readProperty_of_get {ν : Type} (table : RateTable ν) (proto : Option (RateEntry ν))
    (code : String) (entry : RateEntry ν) (h : table.get code = some entry) :
    readProperty table proto code = .entry entry := by
  unfold readProperty
  rw [h]

theorem conversion_of_entries {ν : Type} [Mul ν] [Div ν] (h : Host ν) (table : RateTable ν)
    (proto : Option (RateEntry ν)) (src dst : String) (amount : ν)
    (fromRate toRate : RateEntry ν)
    (hs : table.get src = some fromRate) (hd : table.get dst = some toRate) :
    conversion h table proto src dst amount
      = .result (specConvert amount src dst fromRate toRate) := by
  have hne := length_ne_zero_of_get table src fromRate hs
  unfold conversion specConvert perUnit
  rw [if_neg hne, readProperty_of_get table proto src fromRate hs,
    readProperty_of_get table proto dst toRate hd]
  by_cases h1 : src = "UZS"
  · simp [h1, Host.truthyProperty, Host.rateOf, Host.nominalOf]
  · by_cases h2 : dst = "UZS"
    · simp [h1, h2, Host.truthyProperty, Host.rateOf, Host.nominalOf]
    · simp [h1, h2, Host.truthyProperty, Host.rateOf, Host.nominalOf]

theorem updateRateDisplay_cases {ν : Type} [Div ν] [One ν] (h : Host ν)
    (src dst : String) (s : State ν) :
    updateRateDisplay h src dst s = s
      ∨ ∃ text, updateRateDisplay h src dst s = { s with rateText := text, rateColor := "" } := by
  unfold updateRateDisplay
  by_cases hc : (!h.truthyProperty (readProperty s.cbuRates s.cbuProto src)
      || !h.truthyProperty (readProperty s.cbuRates s.cbuProto dst)) = true
  · left
    simp only [hc, if_true]
  · right
    simp only [hc, if_false]
    exact ⟨_, rfl⟩

theorem updateRateDisplay_toAmount {ν : Type} [Div ν] [One ν] (h : Host ν)
    (src dst : String) (s : State ν) :
    (updateRateDisplay h src dst s).toAmount = s.toAmount := by
  rcases updateRateDisplay_cases h src dst s with hu | ⟨text, hu⟩ <;> rw [hu]

/-- C1. For every rate table that contains both codes and every amount, the
variable `result` of `convertCurrency` is the value the specification gives:
`amount / perUnit(to)` from the base `UZS`, `amount * perUnit(from)` to the
base, `amount * perUnit(from) / perUnit(to)` otherwise, with
`perUnit = rate / nominal`; what `convertCurrency` writes to the target field
is that value formatted. With the table `{UZS:{1,1}, USD:{12850,1}}`, 10 USD
give 128500 UZS and 128500 UZS give 10 USD. -/
theorem convert_matches_spec :
    (∀ (ν : Type) [Mul ν] [Div ν] (h : Host ν) (table : RateTable ν)
        (proto : Option (RateEntry ν)) (src dst : String) (amount : ν)
        (fromRate toRate : RateEntry ν),
        table.get src = some fromRate → table.get dst = some toRate →
        conversion h table proto src dst amount
          = .result (specConvert amount src dst fromRate toRate))
    ∧ (∀ (ν : Type) [Mul ν] [Div ν] [Zero ν] [One ν] (h : Host ν) (s : State ν)
        (fromRate toRate : RateEntry ν),
        s.cbuRates.get s.fromCurrency = some fromRate →
        s.cbuRates.get s.toCurrency = some toRate →
        (convertCurrency h s).toAmount
          = formatResultNumber h
              (specConvert (inputAmount h s) s.fromCurrency s.toCurrency fromRate toRate)
              s.toCurrency)
    ∧ (∀ (h : Host ℚ) (proto : Option (RateEntry ℚ)),
        conversion h sampleTable proto "USD" "UZS" 10 = .result 128500
        ∧ conversion h sampleTable proto "UZS" "USD" 128500 = .result 10) := by
  refine ⟨?_, ?_, ?_⟩
  · intro ν _ _ h table proto src dst amount fromRate toRate hs hd
    exact conversion_of_entries h table proto src dst amount fromRate toRate hs hd
  · intro ν _ _ _ _ h s fromRate toRate hs hd
    unfold convertCurrency
    rw [conversion_of_entries h s.cbuRates s.cbuProto s.fromCurrency s.toCurrency _
      fromRate toRate hs hd]
    simp only [updateRateDisplay_toAmount]
  · intro h proto
    constructor
    · rw [conversion_of_entries h sampleTable proto "USD" "UZS" 10
        { rate := 12850, nominal := 1 } { rate := 1, nominal := 1 } rfl rfl]
      simp [specConvert, perUnit]
      norm_num
    · rw [conversion_of_entries h sampleTable proto "UZS" "USD" 128500
        { rate := 1, nominal := 1 } { rate := 12850, nominal := 1 } rfl rfl]
      simp [specConvert, perUnit]
      norm_num

/-- The claim C1 at the sample table, from `USD` to `UZS`, amount 10. -/
theorem convert_matches_spec_witness :
    sampleTable.get "USD" = some { rate := 12850, nominal := 1 }
    ∧ sampleTable.get "UZS" = some { rate := 1, nominal := 1 }
    ∧ ∀ h : Host ℚ,
        conversion h sampleTable none "USD" "UZS" 10
          = .result (specConvert 10 "USD" "UZS"
              { rate := 12850, nominal := 1 } { rate := 1, nominal := 1 }) :=
  ⟨rfl, rfl, fun h => convert_matches_spec.1 ℚ h sampleTable none "USD" "UZS" 10 _ _ rfl rfl⟩

theorem perUnit_base {ν : Type} [LinearOrderedField ν] (table : RateTable ν)
    (hpos : PositiveEntries table) (hbase : BaseAtPar table) (entry : RateEntry ν)
    (h : table.get "UZS" = some entry) : entry.rate / entry.nominal = 1 := by
  rw [hbase entry h]
  exact div_self (ne_of_gt (hpos "UZS" entry h).2)

/-- C5, amended. Round trip in exact arithmetic: for every rate table of the
data model (each entry has positive rate and positive nominal, the base entry
`UZS` is at par: rate = nominal, as in `{rate:1, nominal:1}`), every two
codes in the table and every amount, converting the amount and converting the
result back gives the amount. -/
theorem round_trip {ν : Type} [LinearOrderedField ν] (h : Host ν) (table : RateTable ν)
    (proto : Option (RateEntry ν)) (src dst : String) (amount : ν)
    (fromRate toRate : RateEntry ν)
    (hpos : PositiveEntries table) (hbase : BaseAtPar table)
    (hs : table.get src = some fromRate) (hd : table.get dst = some toRate) :
    ∃ r : ν, conversion h table proto src dst amount = .result r
      ∧ conversion h table proto dst src r = .result amount := by
  refine ⟨specConvert amount src dst fromRate toRate,
    conversion_of_entries h table proto src dst amount fromRate toRate hs hd, ?_⟩
  rw [conversion_of_entries h table proto dst src _ toRate fromRate hd hs]
  have hfr := ne_of_gt (hpos src fromRate hs).1
  have hfn := ne_of_gt (hpos src fromRate hs).2
  have htr := ne_of_gt (hpos dst toRate hd).1
  have htn := ne_of_gt (hpos dst toRate hd).2
  congr 1
  unfold specConvert perUnit
  by_cases h1 : src = "UZS"
  · by_cases h2 : dst = "UZS"
    · subst h1; subst h2
      rw [perUnit_base table hpos hbase fromRate hs, perUnit_base table hpos hbase toRate hd]
      simp
    · simp only [if_pos h1, if_neg h2]
      field_simp
  · by_cases h2 : dst = "UZS"
    · simp only [if_neg h1, if_pos h2]
      field_simp
    · simp only [if_neg h1, if_neg h2]
      field_simp
      ring

theorem sampleTable_positive : PositiveEntries sampleTable := by
  intro code entry h
  simp only [sampleTable, RateTable.get, List.lookup] at h
  split at h
  · cases h; norm_num
  · split at h
    · cases h; norm_num
    · cases h

theorem sampleTable_atPar : BaseAtPar sampleTable := by
  intro entry h
  cases h
  rfl

/-- The amended claim C5 at the sample table, `USD` to `UZS` and back. -/
theorem round_trip_witness :
    PositiveEntries sampleTable ∧ BaseAtPar sampleTable
    ∧ ∀ h : Host ℚ, ∃ r : ℚ, conversion h sampleTable none "USD" "UZS" 10 = .result r
      ∧ conversion h sampleTable none "UZS" "USD" r = .result 10 :=
  ⟨sampleTable_positive, sampleTable_atPar, fun h =>
    round_trip h sampleTable none "USD" "UZS" 10 _ _ sampleTable_positive sampleTable_atPar
      rfl rfl⟩

set_option exponentiation.threshold 2048 in
set_option maxRecDepth 1000000 in
/-- C5 as stated fails in the program's numbers: in the table
`{UZS:{1,1}, USD:{12850,1}, CNY:{1580.96,1}}`, which meets the data model,
converting the amount `1e308` from `USD` to `UZS` gives `Infinity` (the
product overflows), and converting that back gives `Infinity`, which is
within no tolerance of the amount. -/
theorem round_trip_overflows :
    doubleTable.get "UZS" = some { rate := 1, nominal := 1 }
    ∧ doubleTable.get "USD" = some { rate := Double.ofNat 12850, nominal := Double.ofNat 1 }
    ∧ (1 : Double) = .fin false (2 ^ 52) (-52)
    ∧ Double.ofNat 12850 = .fin false (12850 * 2 ^ 39) (-39)
    ∧ hugeAmount = .fin false 5010420900022432 971
    ∧ ∀ h : Host Double,
        conversion h doubleTable none "USD" "UZS" hugeAmount = .result (.inf false)
        ∧ conversion h doubleTable none "UZS" "USD" (.inf false) = .result (.inf false) := by
  refine ⟨rfl, rfl, rfl, rfl, rfl, fun h => ⟨?_, ?_⟩⟩
  · rw [conversion_of_entries h doubleTable none "USD" "UZS" hugeAmount
      { rate := Double.ofNat 12850, nominal := Double.ofNat 1 } { rate := 1, nominal := 1 }
      rfl rfl]
    congr 1
  · rw [conversion_of_entries h doubleTable none "UZS" "USD" (.inf false)
      { rate := 1, nominal := 1 } { rate := Double.ofNat 12850, nominal := Double.ofNat 1 }
      rfl rfl]
    congr 1

/-- C8, amended. Identity in exact arithmetic: for every rate table of the
data model (each entry has positive rate and positive nominal, the base entry
`UZS` is at par: rate = nominal, as in `{rate:1, nominal:1}`), every currency
`X` in the table and every amount, converting the amount from `X` to `X` gives
exactly the amount. -/
theorem identity_conversion {ν : Type} [LinearOrderedField ν] (h : Host ν)
    (table : RateTable ν) (proto : Option (RateEntry ν)) (code : String) (amount : ν)
    (entry : RateEntry ν) (hpos : PositiveEntries table) (hbase : BaseAtPar table)
    (hx : table.get code = some entry) :
    conversion h table proto code code amount = .result amount := by
  rw [conversion_of_entries h table proto code code amount entry entry hx hx]
  have hr := ne_of_gt (hpos code entry hx).1
  have hn := ne_of_gt (hpos code entry hx).2
  congr 1
  unfold specConvert perUnit
  by_cases h1 : code = "UZS"
  · subst h1
    rw [if_pos rfl, perUnit_base table hpos hbase entry hx]
    simp
  · simp only [if_neg h1]
    field_simp

/-- The amended claim C8 at the sample table, for `USD` and for `UZS`. -/
theorem identity_conversion_witness :
    PositiveEntries sampleTable ∧ BaseAtPar sampleTable
    ∧ ∀ h : Host ℚ,
        conversion h sampleTable none "USD" "USD" 7 = .result 7
        ∧ conversion h sampleTable none "UZS" "UZS" 7 = .result 7 :=
  ⟨sampleTable_positive, sampleTable_atPar, fun h =>
    ⟨identity_conversion h sampleTable none "USD" 7 _ sampleTable_positive sampleTable_atPar
        rfl,
      identity_conversion h sampleTable none "UZS" 7 _ sampleTable_positive sampleTable_atPar
        rfl⟩⟩

set_option maxRecDepth 1000000 in
/-- C8 as stated fails in the program's numbers: in the table
`{UZS:{1,1}, USD:{12850,1}, CNY:{1580.96,1}}`, which meets the data model,
converting the amount 7 from `CNY` to `CNY` gives `(7 * 1580.96) / 1580.96`,
which is `7.000000000000001`: the amount plus one unit in its last binary
digit. -/
theorem identity_inexact_in_binary64 :
    doubleTable.get "UZS" = some { rate := 1, nominal := 1 }
    ∧ doubleTable.get "CNY" = some { rate := yuanRate, nominal := Double.ofNat 1 }
    ∧ yuanRate = .fin false 6953135612194980 (-42)
    ∧ Double.ofNat 1 = .fin false (2 ^ 52) (-52)
    ∧ Double.ofNat 7 = .fin false (7 * 2 ^ 50) (-50)
    ∧ ∀ h : Host Double,
        conversion h doubleTable none "CNY" "CNY" (Double.ofNat 7)
          = .result (.fin false (7 * 2 ^ 50 + 1) (-50)) := by
  refine ⟨rfl, rfl, rfl, rfl, rfl, fun h => ?_⟩
  rw [conversion_of_entries h doubleTable none "CNY" "CNY" (Double.ofNat 7)
    { rate := yuanRate, nominal := Double.ofNat 1 }
    { rate := yuanRate, nominal := Double.ofNat 1 } rfl rfl]
  congr 1

/-! ## Lookup errors -/

theorem readProperty_of_missing {ν : Type} (table : RateTable ν)
    (proto : Option (RateEntry ν)) (code : String) (hget : table.get code = none)
    (hplain : code ∉ inheritedNames proto) :
    readProperty table proto code = .value .undefined := by
  unfold readProperty
  rw [hget]
  cases proto with
  | none =>
    have hc : objectPrototypeNames.contains code = false := by
      simpa [inheritedNames] using hplain
    simp only [hc, Bool.false_eq_true, if_false]
  | some p =>
    have hmem : code ∉ ["rate", "nominal", "name", "date"] ++ objectPrototypeNames := hplain
    rw [List.mem_append, not_or] at hmem
    have hc : objectPrototypeNames.contains code = false := by simpa using hmem.2
    have h0 : code ≠ "__proto__" := by
      intro he
      apply hmem.2
      rw [he]
      decide
    have h1 : code ≠ "rate" := fun he => hmem.1 (by rw [he]; decide)
    have h2 : code ≠ "nominal" := fun he => hmem.1 (by rw [he]; decide)
    have h3 : code ≠ "name" := fun he => hmem.1 (by rw [he]; decide)
    have h4 : code ≠ "date" := fun he => hmem.1 (by rw [he]; decide)
    simp only [h0, h1, h2, h3, h4, hc, Bool.false_eq_true, if_false]

theorem truthy_read_iff_own {ν : Type} (h : Host ν) (table : RateTable ν)
    (proto : Option (RateEntry ν)) (code : String) (hplain : code ∉ inheritedNames proto) :
    h.truthyProperty (readProperty table proto code) = false ↔ table.get code = none := by
  cases hget : table.get code with
  | none =>
    rw [readProperty_of_missing table proto code hget hplain]
    simp [Host.truthyProperty, Host.truthyValue]
  | some e =>
    rw [readProperty_of_get table proto code e hget]
    simp [Host.truthyProperty]

theorem length_ne_zero_of_ne_nil {ν : Type} (table : RateTable ν) (hne : table ≠ []) :
    table.length ≠ 0 := by
  cases table with
  | nil => exact absurd rfl hne
  | cons p t => simp

theorem conversion_of_falsy {ν : Type} [Mul ν] [Div ν] (h : Host ν) (table : RateTable ν)
    (proto : Option (RateEntry ν)) (src dst : String) (amount : ν) (hne : table ≠ [])
    (hfalsy : h.truthyProperty (readProperty table proto src) = false
      ∨ h.truthyProperty (readProperty table proto dst) = false) :
    conversion h table proto src dst amount = .lookupError := by
  unfold conversion
  rw [if_neg (length_ne_zero_of_ne_nil table hne)]
  rcases hfalsy with hf | hf <;> simp [hf]

theorem conversion_of_truthy {ν : Type} [Mul ν] [Div ν] (h : Host ν) (table : RateTable ν)
    (proto : Option (RateEntry ν)) (src dst : String) (amount : ν) (hne : table ≠ [])
    (hs : h.truthyProperty (readProperty table proto src) = true)
    (hd : h.truthyProperty (readProperty table proto dst) = true) :
    ∃ value, conversion h table proto src dst amount = .result value := by
  unfold conversion
  rw [if_neg (length_ne_zero_of_ne_nil table hne)]
  simp only [hs, hd, Bool.not_true, Bool.or_self, Bool.false_eq_true, if_false]
  by_cases h1 : src = "UZS"
  · exact ⟨_, by rw [if_pos h1]⟩
  · by_cases h2 : dst = "UZS"
    · exact ⟨_, by rw [if_neg h1, if_pos h2]⟩
    · exact ⟨_, by rw [if_neg h1, if_neg h2]⟩

theorem fetchCBURates_toAmount {ν : Type} (s : State ν) :
    (fetchCBURates s).toAmount = s.toAmount := by
  unfold fetchCBURates
  split <;> rfl

theorem fetchCBURates_errorsShown {ν : Type} (s : State ν) :
    (fetchCBURates s).errorsShown = s.errorsShown := by
  unfold fetchCBURates
  split <;> rfl

theorem updateRateDisplay_errorsShown {ν : Type} [Div ν] [One ν] (h : Host ν)
    (src dst : String) (s : State ν) :
    (updateRateDisplay h src dst s).errorsShown = s.errorsShown := by
  rcases updateRateDisplay_cases h src dst s with hu | ⟨text, hu⟩ <;> rw [hu]

theorem errorsShown_iff_falsy {ν : Type} [Mul ν] [Div ν] [Zero ν] [One ν] (h : Host ν)
    (s : State ν) (hne : s.cbuRates ≠ []) :
    (convertCurrency h s).errorsShown = s.errorsShown + 1
      ↔ (h.truthyProperty (readProperty s.cbuRates s.cbuProto s.fromCurrency) = false
        ∨ h.truthyProperty (readProperty s.cbuRates s.cbuProto s.toCurrency) = false) := by
  constructor
  · intro herr
    by_contra hboth
    push_neg at hboth
    obtain ⟨value, hv⟩ := conversion_of_truthy h s.cbuRates s.cbuProto s.fromCurrency
      s.toCurrency (inputAmount h s) hne (by simpa using hboth.1) (by simpa using hboth.2)
    unfold convertCurrency at herr
    rw [hv] at herr
    simp only [updateRateDisplay_errorsShown] at herr
    omega
  · intro hfalsy
    unfold convertCurrency
    rw [conversion_of_falsy h s.cbuRates s.cbuProto s.fromCurrency s.toCurrency _ hne hfalsy]
    rfl

/-- C3, amended. For every non-empty rate table and every pair of selected
codes of which neither names something the object `cbuRates` inherits (a
member of `Object.prototype` such as `constructor`), `convertCurrency` calls
`showError` if and only if one of the two codes is absent from the table. In
general, with a non-empty table, it calls `showError` if and only if one of
the two reads of `cbuRates` gives something falsy. With the empty table it
calls `fetchCBURates` instead and shows no error itself. -/
theorem lookup_error_iff_missing {ν : Type} [Mul ν] [Div ν] [Zero ν] [One ν] (h : Host ν)
    (s : State ν) :
    (s.cbuRates ≠ [] → s.fromCurrency ∉ inheritedNames s.cbuProto →
      s.toCurrency ∉ inheritedNames s.cbuProto →
      ((convertCurrency h s).errorsShown = s.errorsShown + 1
        ↔ (s.cbuRates.get s.fromCurrency = none ∨ s.cbuRates.get s.toCurrency = none)))
    ∧ (s.cbuRates ≠ [] →
      ((convertCurrency h s).errorsShown = s.errorsShown + 1
        ↔ (h.truthyProperty (readProperty s.cbuRates s.cbuProto s.fromCurrency) = false
          ∨ h.truthyProperty (readProperty s.cbuRates s.cbuProto s.toCurrency) = false)))
    ∧ (s.cbuRates = [] →
      convertCurrency h s = fetchCBURates s
        ∧ (convertCurrency h s).errorsShown = s.errorsShown) := by
  refine ⟨?_, errorsShown_iff_falsy h s, ?_⟩
  · intro hne hfrom hto
    rw [errorsShown_iff_falsy h s hne,
      truthy_read_iff_own h s.cbuRates s.cbuProto s.fromCurrency hfrom,
      truthy_read_iff_own h s.cbuRates s.cbuProto s.toCurrency hto]
  · intro hempty
    have hc : convertCurrency h s = fetchCBURates s := by
      unfold convertCurrency
      rw [hempty]
      rfl
    exact ⟨hc, by rw [hc, fetchCBURates_errorsShown]⟩

theorem fetchCBURates_cbuRates {ν : Type} (s : State ν) :
    (fetchCBURates s).cbuRates = s.cbuRates := by
  unfold fetchCBURates
  split <;> rfl

theorem convertCurrency_cbuRates {ν : Type} [Mul ν] [Div ν] [Zero ν] [One ν] (h : Host ν)
    (s : State ν) : (convertCurrency h s).cbuRates = s.cbuRates := by
  unfold convertCurrency
  split
  · exact fetchCBURates_cbuRates s
  · rfl
  · rcases updateRateDisplay_cases h s.fromCurrency s.toCurrency
      { s with toAmount := formatResultNumber h _ s.toCurrency } with hu | ⟨text, hu⟩ <;> rw [hu]

theorem convertCurrency_cbuProto {ν : Type} [Mul ν] [Div ν] [Zero ν] [One ν] (h : Host ν)
    (s : State ν) : (convertCurrency h s).cbuProto = s.cbuProto := by
  unfold convertCurrency
  split
  · unfold fetchCBURates; split <;> rfl
  · rfl
  · rcases updateRateDisplay_cases h s.fromCurrency s.toCurrency
      { s with toAmount := formatResultNumber h _ s.toCurrency } with hu | ⟨text, hu⟩ <;> rw [hu]

theorem convertCurrency_fromOptions {ν : Type} [Mul ν] [Div ν] [Zero ν] [One ν] (h : Host ν)
    (s : State ν) : (convertCurrency h s).fromOptions = s.fromOptions := by
  unfold convertCurrency
  split
  · unfold fetchCBURates; split <;> rfl
  · rfl
  · rcases updateRateDisplay_cases h s.fromCurrency s.toCurrency
      { s with toAmount := formatResultNumber h _ s.toCurrency } with hu | ⟨text, hu⟩ <;> rw [hu]

theorem convertCurrency_toAmount_of_falsy {ν : Type} [Mul ν] [Div ν] [Zero ν] [One ν]
    (h : Host ν) (s : State ν)
    (hfalsy : h.truthyProperty (readProperty s.cbuRates s.cbuProto s.fromCurrency) = false
      ∨ h.truthyProperty (readProperty s.cbuRates s.cbuProto s.toCurrency) = false) :
    (convertCurrency h s).toAmount = s.toAmount := by
  by_cases hne : s.cbuRates = []
  · unfold convertCurrency
    rw [hne]
    exact fetchCBURates_toAmount s
  · unfold convertCurrency
    rw [conversion_of_falsy h s.cbuRates s.cbuProto s.fromCurrency s.toCurrency _ hne hfalsy]
    rfl

theorem falsy_of_missing {ν : Type} (h : Host ν) (s : State ν)
    (hfrom : s.fromCurrency ∉ inheritedNames s.cbuProto)
    (hto : s.toCurrency ∉ inheritedNames s.cbuProto)
    (hmiss : s.cbuRates.get s.fromCurrency = none ∨ s.cbuRates.get s.toCurrency = none) :
    h.truthyProperty (readProperty s.cbuRates s.cbuProto s.fromCurrency) = false
      ∨ h.truthyProperty (readProperty s.cbuRates s.cbuProto s.toCurrency) = false := by
  rcases hmiss with hm | hm
  · exact Or.inl ((truthy_read_iff_own h _ _ _ hfrom).2 hm)
  · exact Or.inr ((truthy_read_iff_own h _ _ _ hto).2 hm)

theorem convertCurrency_toAmount_of_entries {ν : Type} [Mul ν] [Div ν] [Zero ν] [One ν]
    (h : Host ν) (s : State ν) (fromRate toRate : RateEntry ν)
    (hs : s.cbuRates.get s.fromCurrency = some fromRate)
    (hd : s.cbuRates.get s.toCurrency = some toRate) :
    (convertCurrency h s).toAmount
      = formatResultNumber h
          (specConvert (inputAmount h s) s.fromCurrency s.toCurrency fromRate toRate)
          s.toCurrency := by
  unfold convertCurrency
  rw [conversion_of_entries h s.cbuRates s.cbuProto s.fromCurrency s.toCurrency _
    fromRate toRate hs hd]
  simp only [updateRateDisplay_toAmount]

theorem convertCurrency_inheritedCodePage (h : Host ℚ) :
    convertCurrency h inheritedCodePage
      = updateRateDisplay h "constructor" "UZS"
          { inheritedCodePage with
            toAmount := formatResultNumber h
              (inputAmount h inheritedCodePage
                * (h.toNumber .undefined / h.toNumber .undefined)) "UZS" } := by
  unfold convertCurrency
  have hc : conversion h inheritedCodePage.cbuRates inheritedCodePage.cbuProto
      inheritedCodePage.fromCurrency inheritedCodePage.toCurrency
      (inputAmount h inheritedCodePage)
      = .result (inputAmount h inheritedCodePage
          * (h.toNumber .undefined / h.toNumber .undefined)) := by
    unfold conversion
    rfl
  rw [hc]
  rfl

/-- The claim C3 as amended, at the sample page with `EUR` as the source. -/
theorem lookup_error_iff_missing_witness :
    missingCodePage.cbuRates ≠ []
    ∧ missingCodePage.fromCurrency ∉ inheritedNames missingCodePage.cbuProto
    ∧ missingCodePage.toCurrency ∉ inheritedNames missingCodePage.cbuProto
    ∧ missingCodePage.cbuRates.get missingCodePage.fromCurrency = none
    ∧ ∀ h : Host ℚ,
        (convertCurrency h missingCodePage).errorsShown = missingCodePage.errorsShown + 1 :=
  have hne : missingCodePage.cbuRates ≠ [] := List.cons_ne_nil _ _
  have hfrom : missingCodePage.fromCurrency ∉ inheritedNames missingCodePage.cbuProto := by
    decide
  have hto : missingCodePage.toCurrency ∉ inheritedNames missingCodePage.cbuProto := by
    decide
  ⟨hne, hfrom, hto, rfl, fun h =>
    ((lookup_error_iff_missing h missingCodePage).1 hne hfrom hto).2 (Or.inl rfl)⟩

/-- C3 as stated fails. For the empty table: right after page load, with the
first refresh in flight, both selected codes are absent from the table, and
`convertCurrency` leaves the whole page as it is: no error is shown. For a
code that names a member of `Object.prototype`: with the sample table and
`constructor` selected as the source, the code is absent from the table, yet
the read `cbuRates['constructor']` gives a function, no error is shown, and
the target field gets the formatted product of the amount and
`undefined / undefined`. -/
theorem missing_code_shows_no_error :
    (loadingPage.cbuRates = []
      ∧ loadingPage.cbuRates.get loadingPage.fromCurrency = none
      ∧ loadingPage.cbuRates.get loadingPage.toCurrency = none
      ∧ ∀ h : Host ℚ, convertCurrency h loadingPage = loadingPage)
    ∧ (inheritedCodePage.cbuRates = sampleTable
      ∧ inheritedCodePage.cbuRates.get inheritedCodePage.fromCurrency = none
      ∧ ∀ h : Host ℚ,
          (convertCurrency h inheritedCodePage).errorsShown = inheritedCodePage.errorsShown
          ∧ (convertCurrency h inheritedCodePage).toAmount
            = formatResultNumber h
                (inputAmount h inheritedCodePage
                  * (h.toNumber .undefined / h.toNumber .undefined)) "UZS") := by
  refine ⟨⟨rfl, rfl, rfl, fun _ => rfl⟩, rfl, rfl, fun h => ?_⟩
  rw [convertCurrency_inheritedCodePage h]
  exact ⟨updateRateDisplay_errorsShown h _ _ _, updateRateDisplay_toAmount h _ _ _⟩

/-- C4, amended. On a lookup error `convertCurrency` writes nothing to the
target field: for every state in which one of the two selected codes is
absent from the rate table, and neither code names something the object
`cbuRates` inherits (a member of `Object.prototype` such as `constructor`),
the value of `toAmountInput` after the call is what it was before. With a
non-empty table the rate line then shows the error message. -/
theorem lookup_error_keeps_target {ν : Type} [Mul ν] [Div ν] [Zero ν] [One ν] (h : Host ν)
    (s : State ν)
    (hfrom : s.fromCurrency ∉ inheritedNames s.cbuProto)
    (hto : s.toCurrency ∉ inheritedNames s.cbuProto)
    (hmiss : s.cbuRates.get s.fromCurrency = none ∨ s.cbuRates.get s.toCurrency = none) :
    (convertCurrency h s).toAmount = s.toAmount
    ∧ (s.cbuRates ≠ [] → (convertCurrency h s).rateText = errorText) := by
  have hfalsy := falsy_of_missing h s hfrom hto hmiss
  refine ⟨convertCurrency_toAmount_of_falsy h s hfalsy, ?_⟩
  intro hne
  unfold convertCurrency
  rw [conversion_of_falsy h s.cbuRates s.cbuProto s.fromCurrency s.toCurrency _ hne hfalsy]
  rfl

/-- The claim C4 as amended, at the sample page with `EUR` as the source. -/
theorem lookup_error_keeps_target_witness :
    missingCodePage.fromCurrency ∉ inheritedNames missingCodePage.cbuProto
    ∧ missingCodePage.toCurrency ∉ inheritedNames missingCodePage.cbuProto
    ∧ missingCodePage.cbuRates.get missingCodePage.fromCurrency = none
    ∧ ∀ h : Host ℚ,
        (convertCurrency h missingCodePage).toAmount = missingCodePage.toAmount
        ∧ (convertCurrency h missingCodePage).rateText = errorText :=
  have hfrom : missingCodePage.fromCurrency ∉ inheritedNames missingCodePage.cbuProto := by
    decide
  have hto : missingCodePage.toCurrency ∉ inheritedNames missingCodePage.cbuProto := by
    decide
  ⟨hfrom, hto, rfl, fun h =>
    ⟨(lookup_error_keeps_target h missingCodePage hfrom hto (Or.inl rfl)).1,
      (lookup_error_keeps_target h missingCodePage hfrom hto (Or.inl rfl)).2
        (List.cons_ne_nil _ _)⟩⟩

/-- C4 as stated fails. On the sample page the conversion of the amount from
`USD` to `UZS` writes the formatted product to the target field; when the
user then picks `EUR`, which the table lacks, the `change` listener runs
`convertCurrency`, and the target field still shows that earlier result. And
with `constructor` selected as the source, a code that is absent from the
table, `convertCurrency` writes a newly computed amount to the target field:
the formatted product of the amount and `undefined / undefined`. -/
theorem target_field_after_lookup_error :
    sampleTable.get "EUR" = none
    ∧ (∀ h : Host ℚ,
        (convertCurrency h samplePage).toAmount
          = formatResultNumber h (inputAmount h samplePage * (12850 / 1)) "UZS"
        ∧ (step h (.changeFrom "EUR") (convertCurrency h samplePage)).map (fun s => s.toAmount)
          = some (formatResultNumber h (inputAmount h samplePage * (12850 / 1)) "UZS"))
    ∧ inheritedCodePage.cbuRates.get inheritedCodePage.fromCurrency = none
    ∧ (∀ h : Host ℚ,
        (convertCurrency h inheritedCodePage).toAmount
          = formatResultNumber h
              (inputAmount h inheritedCodePage
                * (h.toNumber .undefined / h.toNumber .undefined)) "UZS") := by
  refine ⟨rfl, fun h => ?_, rfl, fun h => ?_⟩
  · have h1 : (convertCurrency h samplePage).toAmount
        = formatResultNumber h (inputAmount h samplePage * (12850 / 1)) "UZS" :=
      convertCurrency_toAmount_of_entries h samplePage
        { rate := 12850, nominal := 1 } { rate := 1, nominal := 1 } rfl rfl
    refine ⟨h1, ?_⟩
    simp only [step, Option.map_some']
    rw [convertCurrency_toAmount_of_falsy]
    · exact congrArg some h1
    · left
      show h.truthyProperty (readProperty (convertCurrency h samplePage).cbuRates
        (convertCurrency h samplePage).cbuProto
        (selectValue (convertCurrency h samplePage).fromOptions "EUR")) = false
      rw [convertCurrency_cbuRates, convertCurrency_cbuProto, convertCurrency_fromOptions]
      rfl
  · rw [convertCurrency_inheritedCodePage h]
    exact updateRateDisplay_toAmount h _ _ _

/-! ## Stored preferences -/

theorem queryOption_of_plain {ν : Type} (h : Host ν) (code : String) (options : List String)
    (hplain : plainText code = true) :
    queryOption h code options = if code ∈ options then .element else .null := by
  unfold queryOption
  rw [if_pos hplain]
  by_cases hmem : code ∈ options
  · simp [hmem]
  · simp [hmem]

theorem restoreSelection_of_code {ν : Type} (h : Host ν) (code : String)
    (options : List String) (current : String) (hcode : code ≠ "")
    (hplain : plainText code = true) :
    restoreSelection h (some code) options current
      = some (if code ∈ options then code else current) := by
  unfold restoreSelection
  simp only [if_neg hcode]
  rw [queryOption_of_plain h code options hplain]
  by_cases hmem : code ∈ options
  · simp [hmem, selectValue]
  · simp [hmem]

theorem restoreSelection_of_special {ν : Type} (h : Host ν) (code : String)
    (options : List String) (current : String) (hcode : code ≠ "")
    (hspecial : plainText code = false) :
    restoreSelection h (some code) options current
      = match h.querySelector (optionSelector code) options with
        | .throws => none
        | .null => some current
        | .element => some (selectValue options code) := by
  simp [restoreSelection, queryOption, hcode, hspecial]

theorem restoreSelection_of_empty {ν : Type} (h : Host ν) (saved : Option String)
    (options : List String) (current : String) (hs : saved = none ∨ saved = some "") :
    restoreSelection h saved options current = some current := by
  rcases hs with hs | hs <;> rw [hs] <;> simp [restoreSelection]

theorem restoreSelection_of_plain {ν : Type} (h : Host ν) (saved : Option String)
    (options : List String) (current : String)
    (hplain : ∀ v, saved = some v → plainText v = true) :
    ∃ restored, restoreSelection h saved options current = some restored := by
  cases saved with
  | none => exact ⟨current, rfl⟩
  | some v =>
    by_cases hv : v = ""
    · exact ⟨current, restoreSelection_of_empty h _ options current (Or.inr (by rw [hv]))⟩
    · exact ⟨_, restoreSelection_of_code h v options current hv (hplain v rfl)⟩

theorem pageAfter_fromCurrency {ν : Type} (h : Host ν) (s : State ν) (restored : String)
    (hr : restoreSelection h s.savedFrom s.fromOptions s.fromCurrency = some restored) :
    (pageAfter (loadCurrencyPreference h s)).fromCurrency = restored := by
  unfold loadCurrencyPreference
  rw [hr]
  simp only []
  split
  · rfl
  · split
    · split <;> rfl
    · rfl

theorem pageAfter_toCurrency {ν : Type} (h : Host ν) (s : State ν) (fromRestored restored : String)
    (hf : restoreSelection h s.savedFrom s.fromOptions s.fromCurrency = some fromRestored)
    (hr : restoreSelection h s.savedTo s.toOptions s.toCurrency = some restored) :
    (pageAfter (loadCurrencyPreference h s)).toCurrency = restored := by
  unfold loadCurrencyPreference
  rw [hf, hr]
  simp only []
  split
  · split <;> rfl
  · rfl

theorem pageAfter_toCurrency_of_empty {ν : Type} (h : Host ν) (s : State ν)
    (hs : s.savedTo = none ∨ s.savedTo = some "") :
    (pageAfter (loadCurrencyPreference h s)).toCurrency = s.toCurrency := by
  have hr := restoreSelection_of_empty h s.savedTo s.toOptions s.toCurrency hs
  cases hf : restoreSelection h s.savedFrom s.fromOptions s.fromCurrency with
  | none =>
    unfold loadCurrencyPreference
    rw [hf]
    rfl
  | some fromRestored => exact pageAfter_toCurrency h s fromRestored _ hf hr

/-- C9, amended. For every stored source code that is not empty and holds no
double quote, backslash, line break or null character (so that it stands for
itself between the quotes of the attribute selector), and every list of
options, after `loadCurrencyPreference` the source selector holds the stored
code if that code is the value of one of its options, and otherwise keeps the
value it had. The same holds for the target selector when the stored source
code is missing, empty or of that kind too (so that the function gets as far
as the target). A stored code that is missing or the empty string leaves its
selector as it was. -/
theorem restore_validates_codes {ν : Type} (h : Host ν) (s : State ν) :
    (∀ code, s.savedFrom = some code → code ≠ "" → plainText code = true →
      (pageAfter (loadCurrencyPreference h s)).fromCurrency
        = if code ∈ s.fromOptions then code else s.fromCurrency)
    ∧ (∀ code, s.savedTo = some code → code ≠ "" → plainText code = true →
      (∀ v, s.savedFrom = some v → plainText v = true) →
      (pageAfter (loadCurrencyPreference h s)).toCurrency
        = if code ∈ s.toOptions then code else s.toCurrency)
    ∧ ((s.savedFrom = none ∨ s.savedFrom = some "") →
      (pageAfter (loadCurrencyPreference h s)).fromCurrency = s.fromCurrency)
    ∧ ((s.savedTo = none ∨ s.savedTo = some "") →
      (pageAfter (loadCurrencyPreference h s)).toCurrency = s.toCurrency) := by
  refine ⟨?_, ?_, ?_, ?_⟩
  · intro code hsaved hcode hplain
    apply pageAfter_fromCurrency
    rw [hsaved]
    exact restoreSelection_of_code h code _ _ hcode hplain
  · intro code hsaved hcode hplain hfrom
    obtain ⟨fromRestored, hf⟩ :=
      restoreSelection_of_plain h s.savedFrom s.fromOptions s.fromCurrency hfrom
    apply pageAfter_toCurrency h s fromRestored _ hf
    rw [hsaved]
    exact restoreSelection_of_code h code _ _ hcode hplain
  · intro hsaved
    apply pageAfter_fromCurrency
    exact restoreSelection_of_empty h _ _ _ hsaved
  · intro hsaved
    exact pageAfter_toCurrency_of_empty h s hsaved

/-- The claim C9 as amended, at a page with `EUR` stored for the source (an
option: restored) and `XXX` stored for the target (no option: the selected
`UZS` stands). -/
theorem restore_validates_codes_witness :
    storedCodesPage.savedFrom = some "EUR" ∧ storedCodesPage.savedTo = some "XXX"
    ∧ plainText "EUR" = true ∧ plainText "XXX" = true
    ∧ ∀ h : Host ℚ,
        (pageAfter (loadCurrencyPreference h storedCodesPage)).fromCurrency = "EUR"
        ∧ (pageAfter (loadCurrencyPreference h storedCodesPage)).toCurrency = "UZS" :=
  ⟨rfl, rfl, by decide, by decide, fun h =>
    ⟨((restore_validates_codes h storedCodesPage).1 "EUR" rfl (by decide) (by decide)).trans
        (by decide),
      ((restore_validates_codes h storedCodesPage).2.1 "XXX" rfl (by decide) (by decide)
        (by intro v hv; cases hv; decide)).trans (by decide)⟩⟩

/-- C9 as stated fails. For the empty code: the stored source code is the
empty string, the source selector has an option with that value, and after
`loadCurrencyPreference` the selector still holds `USD`. For a code with a
double quote: the selector text is `option[value="A"B"]`; a host that throws
a `SyntaxError` on it ends the function there, and the stored target code
`EUR`, an option, is not restored. For the code `EUR"],option[value="UZS`:
the selector text is a list of two valid selectors; a host that finds an
option for it makes the script assign the stored text, which is no option,
and the source selector ends up empty. -/
theorem empty_code_not_restored :
    (placeholderPage.savedFrom = some ""
      ∧ "" ∈ placeholderPage.fromOptions
      ∧ ∀ h : Host ℚ,
          (pageAfter (loadCurrencyPreference h placeholderPage)).fromCurrency = "USD")
    ∧ (quotedCodePage.savedTo = some "EUR"
      ∧ "EUR" ∈ quotedCodePage.toOptions
      ∧ optionSelector "A\"B" = "option[value=\"A\"B\"]"
      ∧ ∀ h : Host ℚ,
          h.querySelector "option[value=\"A\"B\"]" quotedCodePage.fromOptions = .throws →
          loadCurrencyPreference h quotedCodePage = .error quotedCodePage
          ∧ (pageAfter (loadCurrencyPreference h quotedCodePage)).toCurrency = "UZS")
    ∧ (optionSelector "EUR\"],option[value=\"UZS" = "option[value=\"EUR\"],option[value=\"UZS\"]"
      ∧ ∀ h : Host ℚ,
          h.querySelector "option[value=\"EUR\"],option[value=\"UZS\"]"
            splicedCodePage.fromOptions = .element →
          (pageAfter (loadCurrencyPreference h splicedCodePage)).fromCurrency = "") := by
  refine ⟨⟨rfl, by decide, fun _ => rfl⟩, ⟨rfl, by decide, by decide, fun h hthrow => ?_⟩,
    by decide, fun h hfound => ?_⟩
  · have hq : restoreSelection h quotedCodePage.savedFrom quotedCodePage.fromOptions
        quotedCodePage.fromCurrency = none := by
      show restoreSelection h (some "A\"B") quotedCodePage.fromOptions _ = none
      rw [restoreSelection_of_special h _ _ _ (by decide) (by decide)]
      have ht : h.querySelector (optionSelector "A\"B") quotedCodePage.fromOptions
          = .throws := hthrow
      rw [ht]
    have hl : loadCurrencyPreference h quotedCodePage = .error quotedCodePage := by
      unfold loadCurrencyPreference
      rw [hq]
    exact ⟨hl, by rw [hl]; rfl⟩
  · have hq : restoreSelection h splicedCodePage.savedFrom splicedCodePage.fromOptions
        splicedCodePage.fromCurrency = some "" := by
      show restoreSelection h (some "EUR\"],option[value=\"UZS") splicedCodePage.fromOptions _
        = some ""
      rw [restoreSelection_of_special h _ _ _ (by decide) (by decide)]
      have ht : h.querySelector (optionSelector "EUR\"],option[value=\"UZS")
          splicedCodePage.fromOptions = .element := hfound
      rw [ht]
      rfl
    exact pageAfter_fromCurrency h splicedCodePage "" hq

/-! ## Refresh -/

theorem finallyBlock_cbuRates {ν : Type} (s : State ν) :
    (finallyBlock s).cbuRates = s.cbuRates := rfl

/-- C2 at its failing inputs, with what does hold. When the request fails
in the network, arrives with a non-success status or carries a body that is
no JSON, `cbuRates` after `fetchCBURates` is `cbuRates` before. When the body
parses to something that is no array (here the object `{}`), the table was
already reset: the populated sample table is replaced by the bare base table.
When the body is an array with a `null` after a record, the table is left
rebuilt up to that record. -/
theorem refresh_failure_table (h : Host ℚ) :
    (∀ s : State ℚ,
      (fetchSettled h .networkError s).cbuRates = s.cbuRates
      ∧ (fetchSettled h .notOk s).cbuRates = s.cbuRates
      ∧ (fetchSettled h .invalidJson s).cbuRates = s.cbuRates)
    ∧ refreshingPage.cbuRates = sampleTable
    ∧ (fetchSettled h (.parsed (.object [])) refreshingPage).cbuRates = baseTable ℚ
    ∧ (fetchSettled h (.parsed (.object [])) refreshingPage).cbuRates ≠ refreshingPage.cbuRates
    ∧ (fetchSettled h (.parsed (.array [eurRecord, .null])) refreshingPage).cbuRates
        = [("UZS", { rate := 1, nominal := 1 }),
           ("EUR", { rate := h.parseFloat (.string "13900")
                     nominal := h.parseInt (.string "1")
                     name := .string "EVRO"
                     date := .string "01.01.2025" })]
    ∧ (fetchSettled h (.parsed (.object [])) refreshingPage).errorsShown
        = refreshingPage.errorsShown + 1 := by
  refine ⟨fun s => ⟨rfl, rfl, rfl⟩, rfl, rfl, ?_, rfl, rfl⟩
  intro hEq
  have hlen := congrArg List.length hEq
  simp [fetchSettled, applyData, finallyBlock, catchBlock, showError, showLoading, baseTable,
    refreshingPage, fetchCBURates, samplePage, sampleTable, initialState] at hlen

theorem lookup_map_replace {ν : Type} (t : RateTable ν) (key code : String)
    (entry : RateEntry ν) (hne : key ≠ code) :
    List.lookup code (t.map (fun p => if p.1 == key then (key, entry) else p))
      = List.lookup code t := by
  have hc : (code == key) = false := beq_false_of_ne (Ne.symm hne)
  induction t with
  | nil => rfl
  | cons p t ih =>
    cases p with
    | mk k v =>
      by_cases hk : k = key
      · subst hk
        simp only [List.map_cons, beq_self_eq_true, if_true, List.lookup_cons, hc]
        exact ih
      · have hk2 : (k == key) = false := beq_false_of_ne hk
        simp only [List.map_cons, hk2, Bool.false_eq_true, if_false, List.lookup_cons]
        rw [ih]

theorem set_get_of_ne {ν : Type} (t : RateTable ν) (key code : String)
    (entry : RateEntry ν) (hne : key ≠ code) : (t.set key entry).get code = t.get code := by
  have hc : (code == key) = false := beq_false_of_ne (Ne.symm hne)
  unfold RateTable.set RateTable.get
  split
  · rfl
  · split
    · exact lookup_map_replace t key code entry hne
    · rw [List.lookup_append]
      simp [List.lookup, hc]

theorem forEachRecord_get_of_ne {ν : Type} (h : Host ν) (items : List (JSValue ν))
    (t : RateTable ν) (p : Option (RateEntry ν))
    (built : RateTable ν × Option (RateEntry ν)) (code : String)
    (hkeys : ∀ item ∈ items, h.text (item.prop "Ccy") ≠ code)
    (hok : forEachRecord h items t p = .ok built) : built.1.get code = t.get code := by
  induction items generalizing t p with
  | nil =>
    simp only [forEachRecord, Except.ok.injEq] at hok
    rw [← hok]
  | cons item rest ih =>
    unfold forEachRecord at hok
    split at hok
    · cases hok
    · rw [ih _ _ (fun i hi => hkeys i (List.mem_cons_of_mem _ hi)) hok]
      exact set_get_of_ne t _ code _ (hkeys item (List.mem_cons_self _ _))

theorem forEachRecord_ok {ν : Type} (h : Host ν) (items : List (JSValue ν))
    (t : RateTable ν) (p : Option (RateEntry ν))
    (hitems : ∀ item ∈ items, item.isNullish = false) :
    ∃ built, forEachRecord h items t p = .ok built := by
  induction items generalizing t p with
  | nil => exact ⟨(t, p), rfl⟩
  | cons item rest ih =>
    unfold forEachRecord
    rw [hitems item (List.mem_cons_self _ _)]
    simp only [Bool.false_eq_true, if_false]
    exact ih _ _ (fun i hi => hitems i (List.mem_cons_of_mem _ hi))

theorem base_entry_kept {ν : Type} [Mul ν] [Div ν] [Zero ν] [One ν] (h : Host ν)
    (items : List (JSValue ν)) (s : State ν)
    (hitems : ∀ item ∈ items, item.isNullish = false)
    (hkeys : ∀ item ∈ items, h.text (item.prop "Ccy") ≠ "UZS") :
    (fetchSettled h (.parsed (.array items)) s).cbuRates.get "UZS"
      = some { rate := 1, nominal := 1 } := by
  obtain ⟨built, hok⟩ := forEachRecord_ok h items (baseTable ν) none hitems
  have hget := forEachRecord_get_of_ne h items (baseTable ν) none built "UZS" hkeys hok
  show (finallyBlock (applyData h (.array items) s)).cbuRates.get "UZS" = _
  rw [finallyBlock_cbuRates]
  unfold applyData
  simp only [hok]
  rw [convertCurrency_cbuRates]
  cases items <;> exact hget

/-- C6 at its failing input, with what does hold. After a refresh whose
records are all objects and none of which carries the code `UZS`, the entry
of `UZS` in `cbuRates` is `{ rate: 1, nominal: 1 }`. A feed with a record for
`USD` and a record with the code `UZS`, rate `2` and nominal `1` is a
successful refresh too (no error is shown, the date line is updated), and
afterwards the entry of `UZS` is that record's: its rate is the parsed `2`. -/
theorem base_entry_overwritten (h : Host ℚ) :
    (∀ (items : List (JSValue ℚ)) (s : State ℚ),
      (∀ item ∈ items, item.isNullish = false) →
      (∀ item ∈ items, h.text (item.prop "Ccy") ≠ "UZS") →
      (fetchSettled h (.parsed (.array items)) s).cbuRates.get "UZS"
        = some { rate := 1, nominal := 1 })
    ∧ (fetchSettled h (.parsed (.array [usdRecord, uzsRecord])) loadingPage).cbuRates
      = [("UZS", { rate := h.parseFloat (.string "2")
                   nominal := h.parseInt (.string "1")
                   name := .string "SOM"
                   date := .string "01.01.2025" }),
         ("USD", { rate := h.parseFloat (.string "12850")
                   nominal := h.parseInt (.string "1")
                   name := .string "AQSH dollari"
                   date := .string "01.01.2025" })]
    ∧ (fetchSettled h (.parsed (.array [usdRecord, uzsRecord])) loadingPage).errorsShown
      = loadingPage.errorsShown
    ∧ (fetchSettled h (.parsed (.array [usdRecord, uzsRecord])) loadingPage).lastUpdated
      = "Markaziy Bank kursi: 01.01.2025" := by
  refine ⟨fun items s hitems hkeys => base_entry_kept h items s hitems hkeys, ?_, ?_, ?_⟩
  · show (finallyBlock (applyData h (.array [usdRecord, uzsRecord]) loadingPage)).cbuRates = _
    rw [finallyBlock_cbuRates]
    unfold applyData
    simp only [forEachRecord]
    rfl
  · rfl
  · rfl

/-! ## Single flight -/

theorem fetchCBURates_of_loading {ν : Type} (s : State ν) (hl : s.isLoading = true) :
    fetchCBURates s = s := by
  unfold fetchCBURates
  rw [if_pos hl]

theorem fetchCBURates_flag {ν : Type} (s : State ν) (hs : FlagCountsPending s) :
    FlagCountsPending (fetchCBURates s) := by
  unfold fetchCBURates
  by_cases hl : s.isLoading = true
  · rw [if_pos hl]; exact hs
  · rw [if_neg hl]
    unfold FlagCountsPending at hs ⊢
    simp only [Bool.not_eq_true] at hl
    simp [showLoading, hs, hl]

theorem convertCurrency_flight {ν : Type} [Mul ν] [Div ν] [Zero ν] [One ν] (h : Host ν)
    (s : State ν) :
    ((convertCurrency h s).isLoading = s.isLoading
      ∧ (convertCurrency h s).pending = s.pending)
    ∨ convertCurrency h s = fetchCBURates s := by
  unfold convertCurrency
  split
  · exact Or.inr rfl
  · exact Or.inl ⟨rfl, rfl⟩
  · left
    rcases updateRateDisplay_cases h s.fromCurrency s.toCurrency
      { s with toAmount := formatResultNumber h _ s.toCurrency } with hu | ⟨text, hu⟩ <;>
      rw [hu] <;> exact ⟨rfl, rfl⟩

theorem flag_of_same_flight {ν : Type} (s t : State ν) (hs : FlagCountsPending s)
    (hl : t.isLoading = s.isLoading) (hp : t.pending = s.pending) : FlagCountsPending t := by
  unfold FlagCountsPending at hs ⊢
  rw [hl, hp]
  exact hs

theorem convertCurrency_flag {ν : Type} [Mul ν] [Div ν] [Zero ν] [One ν] (h : Host ν)
    (s : State ν) (hs : FlagCountsPending s) : FlagCountsPending (convertCurrency h s) := by
  rcases convertCurrency_flight h s with ⟨hl, hp⟩ | hf
  · exact flag_of_same_flight s _ hs hl hp
  · rw [hf]; exact fetchCBURates_flag s hs

theorem finallyBlock_flag {ν : Type} (s : State ν) (hs : FlagCountsPending s)
    (hl : s.isLoading = true) : FlagCountsPending (finallyBlock s) := by
  unfold FlagCountsPending at hs ⊢
  rw [hl] at hs
  simp [finallyBlock, showLoading, hs]

theorem convertCurrency_loading {ν : Type} [Mul ν] [Div ν] [Zero ν] [One ν] (h : Host ν)
    (s : State ν) (hl : s.isLoading = true) : (convertCurrency h s).isLoading = true := by
  rcases convertCurrency_flight h s with ⟨hl2, _⟩ | hf
  · rw [hl2]; exact hl
  · rw [hf, fetchCBURates_of_loading s hl]; exact hl

theorem applyData_flag {ν : Type} [Mul ν] [Div ν] [Zero ν] [One ν] (h : Host ν)
    (data : JSValue ν) (s : State ν) (hs : FlagCountsPending s) (hl : s.isLoading = true) :
    FlagCountsPending (applyData h data s) ∧ (applyData h data s).isLoading = true := by
  unfold applyData
  split
  · split
    · split
      · exact ⟨convertCurrency_flag h _ (flag_of_same_flight s _ hs rfl rfl),
          convertCurrency_loading h _ hl⟩
      · exact ⟨convertCurrency_flag h _ (flag_of_same_flight s _ hs rfl rfl),
          convertCurrency_loading h _ hl⟩
    · exact ⟨flag_of_same_flight s _ hs rfl rfl, hl⟩
  · exact ⟨flag_of_same_flight s _ hs rfl rfl, hl⟩

theorem fetchSettled_flag {ν : Type} [Mul ν] [Div ν] [Zero ν] [One ν] (h : Host ν)
    (outcome : FetchOutcome ν) (s : State ν) (hs : FlagCountsPending s)
    (hp : 0 < s.pending) : FlagCountsPending (fetchSettled h outcome s) := by
  have hl : s.isLoading = true := by
    unfold FlagCountsPending at hs
    by_contra hne
    rw [if_neg hne] at hs
    omega
  unfold fetchSettled
  cases outcome with
  | parsed data =>
    exact finallyBlock_flag _ (applyData_flag h data s hs hl).1 (applyData_flag h data s hs hl).2
  | networkError => exact finallyBlock_flag _ (flag_of_same_flight s _ hs rfl rfl) hl
  | notOk => exact finallyBlock_flag _ (flag_of_same_flight s _ hs rfl rfl) hl
  | invalidJson => exact finallyBlock_flag _ (flag_of_same_flight s _ hs rfl rfl) hl

theorem loadCurrencyPreference_flight {ν : Type} (h : Host ν) (s : State ν) :
    (pageAfter (loadCurrencyPreference h s)).isLoading = s.isLoading
      ∧ (pageAfter (loadCurrencyPreference h s)).pending = s.pending := by
  unfold loadCurrencyPreference
  split
  · exact ⟨rfl, rfl⟩
  · split
    · exact ⟨rfl, rfl⟩
    · simp only [pageAfter]
      split
      · split <;> exact ⟨rfl, rfl⟩
      · exact ⟨rfl, rfl⟩

theorem step_flag {ν : Type} [Mul ν] [Div ν] [Zero ν] [One ν] (h : Host ν)
    (e : Event ν) (s t : State ν) (hs : FlagCountsPending s) (hstep : step h e s = some t) :
    FlagCountsPending t := by
  cases e with
  | refresh =>
    simp only [step, Option.some.injEq] at hstep
    rw [← hstep]; exact fetchCBURates_flag s hs
  | settled outcome =>
    simp only [step] at hstep
    by_cases hp : 0 < s.pending
    · rw [if_pos hp, Option.some.injEq] at hstep
      rw [← hstep]; exact fetchSettled_flag h outcome s hs hp
    · rw [if_neg hp] at hstep; cases hstep
  | convert =>
    simp only [step, Option.some.injEq] at hstep
    rw [← hstep]; exact convertCurrency_flag h s hs
  | input typed =>
    simp only [step, Option.some.injEq] at hstep
    rw [← hstep]; exact flag_of_same_flight s _ hs rfl rfl
  | changeFrom code =>
    simp only [step, Option.some.injEq] at hstep
    rw [← hstep]; exact convertCurrency_flag h _ (flag_of_same_flight s _ hs rfl rfl)
  | changeTo code =>
    simp only [step, Option.some.injEq] at hstep
    rw [← hstep]; exact convertCurrency_flag h _ (flag_of_same_flight s _ hs rfl rfl)
  | swap =>
    simp only [step, Option.some.injEq] at hstep
    rw [← hstep]
    exact convertCurrency_flag h _ (flag_of_same_flight s _ hs rfl rfl)
  | clear =>
    simp only [step, Option.some.injEq] at hstep
    rw [← hstep]; exact convertCurrency_flag h _ (flag_of_same_flight s _ hs rfl rfl)
  | load =>
    simp only [step] at hstep
    have h1 := loadCurrencyPreference_flight h s
    cases hl1 : loadCurrencyPreference h s with
    | error thrown =>
      rw [hl1] at hstep h1
      simp only [Option.some.injEq] at hstep
      rw [← hstep]
      exact flag_of_same_flight s _ hs h1.1 h1.2
    | ok s1 =>
      rw [hl1] at h1
      simp only [hl1] at hstep
      have hs1 : FlagCountsPending s1 := flag_of_same_flight s _ hs h1.1 h1.2
      have h2 := loadCurrencyPreference_flight h s1
      cases hl2 : loadCurrencyPreference h s1 with
      | error thrown =>
        rw [hl2] at h2
        simp only [hl2, Option.some.injEq] at hstep
        rw [← hstep]
        exact flag_of_same_flight s1 _ hs1 h2.1 h2.2
      | ok s2 =>
        rw [hl2] at h2
        simp only [hl2, Option.some.injEq] at hstep
        rw [← hstep]
        exact fetchCBURates_flag _ (flag_of_same_flight s1 _ hs1 h2.1 h2.2)

theorem run_flag {ν : Type} [Mul ν] [Div ν] [Zero ν] [One ν] (h : Host ν)
    (es : List (Event ν)) (s t : State ν) (hs : FlagCountsPending s)
    (hrun : run h es s = some t) : FlagCountsPending t := by
  induction es generalizing s with
  | nil =>
    simp only [run, Option.some.injEq] at hrun
    rw [← hrun]; exact hs
  | cons e es ih =>
    simp only [run] at hrun
    cases hstep : step h e s with
    | none => rw [hstep] at hrun; cases hrun
    | some u =>
      rw [hstep] at hrun
      exact ih u (step_flag h e s u hs hstep) hrun

theorem pending_le_one_of_flag {ν : Type} (s : State ν) (hs : FlagCountsPending s) :
    s.pending ≤ 1 := by
  unfold FlagCountsPending at hs
  rw [hs]
  split <;> omega

/-- C7. Single-flight refresh: in every state with `isLoading = true` a call
of `fetchCBURates` changes nothing at all (no request is issued; `cbuRates`,
`isLoading` and everything shown stay as they are); and in every state
reached from a page with no refresh in flight by any sequence of page events
(refresh calls, settling requests, conversions, edits, selections, swaps), at
most one request is pending, and one is pending exactly while `isLoading` is
true. -/
theorem single_flight :
    (∀ (ν : Type) (s : State ν), s.isLoading = true →
      fetchCBURates s = s ∧ (fetchCBURates s).pending = s.pending)
    ∧ (∀ (ν : Type) [Mul ν] [Div ν] [Zero ν] [One ν] (h : Host ν) (s0 t : State ν)
        (es : List (Event ν)),
        s0.isLoading = false → s0.pending = 0 → run h es s0 = some t →
        t.pending ≤ 1 ∧ (t.pending = 1 ↔ t.isLoading = true)) := by
  constructor
  · intro ν s hl
    have hf := fetchCBURates_of_loading s hl
    exact ⟨hf, by rw [hf]⟩
  · intro ν _ _ _ _ h s0 t es hl hp hrun
    have h0 : FlagCountsPending s0 := by
      unfold FlagCountsPending
      rw [hl, hp]; rfl
    have ht := run_flag h es s0 t h0 hrun
    refine ⟨pending_le_one_of_flag t ht, ?_⟩
    unfold FlagCountsPending at ht
    constructor
    · intro h1
      by_contra hne
      rw [if_neg hne] at ht
      omega
    · intro h1
      rw [ht, if_pos h1]

/-- The claim C7 on the sample page: a refresh, then two more calls while it
is in flight, leave one request pending; the second call changes nothing. -/
theorem single_flight_witness :
    refreshingPage.isLoading = true
    ∧ fetchCBURates refreshingPage = refreshingPage
    ∧ samplePage.isLoading = false ∧ samplePage.pending = 0
    ∧ ∀ h : Host ℚ,
        run h [.refresh, .refresh, .refresh] samplePage = some refreshingPage
        ∧ refreshingPage.pending ≤ 1 :=
  ⟨rfl, (single_flight.1 ℚ refreshingPage rfl).1, rfl, rfl,
    fun h => ⟨rfl, (single_flight.2 ℚ h samplePage refreshingPage
        [.refresh, .refresh, .refresh] rfl rfl rfl).1⟩⟩


end Pullarim
